import Mathlib

/-!
Verification of the proofreading pipeline of the Collection_longnan backend.

The Python sources embedded here are:
  * `app/services/checker/rule_checker.py`   (the rule scanner),
  * `app/routers/check.py`                   (section splitter, batch and
    streaming orchestrators),
  * `app/services/checker/deepseek_checker.py` and
    `app/services/checker/punctuation_ai_checker.py` (the AI agents'
    retry/post-filter control flow).

Strings are modelled as `List Char`; Python indexes strings by code point,
which coincides with Lean's `Char`.  Python's `str.strip` / `\s` are
modelled on the ASCII whitespace class, which is the only whitespace the
repository's data contains.  External effects (the language-model call,
the database-backed configuration load) are parameters of the embedded
functions; everything else is translated directly from the source.
-/

set_option maxHeartbeats 1000000

abbrev Str := List Char

/-- ASCII whitespace, the relevant subset of Python's `str.strip` /
regex `\s` class. -/
def isPySpace (c : Char) : Bool :=
  c = ' ' || c = '\t' || c = '\n' || c = '\r' || c = '\x0b' || c = '\x0c'

/-- Python `str.strip()`: drop leading and trailing whitespace. -/
def pyStrip (s : Str) : Str :=
  ((s.dropWhile isPySpace).reverse.dropWhile isPySpace).reverse

/-- Python `content.split('\n')`. -/
def splitOnNl : Str → List Str
  | [] => [[]]
  | c :: t =>
    match splitOnNl t with
    | [] => [[]]
    | l :: ls => if c = '\n' then [] :: l :: ls else (c :: l) :: ls

/-- Python `sub in s` (substring containment). -/
def containsSub (sub : Str) : Str → Bool
  | [] => sub.isPrefixOf []
  | a :: t => sub.isPrefixOf (a :: t) || containsSub sub t

/-- Python `s.find(sub)` restricted to found/not-found: index of the first
occurrence of `sub` in `s`. -/
def findSub (sub : Str) : Str → Option Nat
  | [] => if sub.isPrefixOf [] then some 0 else none
  | a :: t =>
    if sub.isPrefixOf (a :: t) then some 0
    else (findSub sub t).map (· + 1)

/-- Counting loop of Python `s.count(sub)` for non-empty `sub`
(non-overlapping occurrences, scanning left to right).  `fuel` bounds the
recursion; `pyCount` below supplies enough fuel. -/
def pyCountAux (sub : Str) : Nat → Str → Nat
  | 0, _ => 0
  | _ + 1, [] => 0
  | fuel + 1, a :: t =>
    if sub.isPrefixOf (a :: t) then
      1 + pyCountAux sub fuel ((a :: t).drop sub.length)
    else
      pyCountAux sub fuel t

/-- Python `s.count(sub)`. -/
def pyCount (s sub : Str) : Nat :=
  if sub.isEmpty then s.length + 1 else pyCountAux sub s.length s

/-- Python slice `s[a:b]` with non-negative clamped indices. -/
def pySliceNat (s : Str) (a b : Nat) : Str :=
  (s.take b).drop a

/-- Python slice `s[a:b]` with possibly negative integer indices
(a negative index counts from the end of the string). -/
def pySliceInt (s : Str) (a b : Int) : Str :=
  let n := s.length
  let a' : Nat := if a < 0 then (n + a).toNat else a.toNat
  let b' : Nat := if b < 0 then (n + b).toNat else b.toNat
  pySliceNat s a' b'

/-- All indices `i` with `s[i] = c`, in increasing order
(`re.finditer` over a single-character pattern). -/
def charPositions (c : Char) (s : Str) : List Nat :=
  (List.range s.length).filter (fun i => s.getD i ' ' = c)

/-- Python `s.find(c, start)`: least index `i ≥ start` with `s[i] = c`. -/
def pyFindFrom (c : Char) (s : Str) (start : Nat) : Option Nat :=
  ((List.range s.length).filter (fun i => start ≤ i && s.getD i ' ' = c)).head?

/-- Python `s.rfind(c, 0, stop)`: greatest index `i < stop` with `s[i] = c`. -/
def pyRfindBefore (c : Char) (s : Str) (stop : Nat) : Option Nat :=
  ((List.range s.length).filter (fun i => i < stop && s.getD i ' ' = c)).getLast?

/-- Python `s.replace(c, d, 1)` for single characters: replace the first
occurrence of `c` by `d`. -/
def replaceFirstChar (c d : Char) : Str → Str
  | [] => []
  | a :: t => if a = c then d :: t else a :: replaceFirstChar c d t

/-- Python `"; ".join(msgs)`. -/
def joinSemicolon : List Str → Str
  | [] => []
  | [m] => m
  | m :: rest => m ++ (';' :: ' ' :: joinSemicolon rest)

/-- Recursion of `natChars`; `fuel` bounds the recursion depth and
`natChars` supplies enough. -/
def natCharsAux : Nat → Nat → Str
  | 0, _ => []
  | fuel + 1, n =>
    if n < 10 then [Nat.digitChar n]
    else natCharsAux fuel (n / 10) ++ [Nat.digitChar (n % 10)]

/-- Decimal digit characters of a natural number (Python `str(n)` /
an f-string interpolation of an `int`). -/
def natChars (n : Nat) : Str :=
  natCharsAux (n + 1) n

/-- Python `int(digit-string)` for a non-empty string of ASCII digits. -/
def digitsToNat (s : Str) : Nat :=
  s.foldl (fun acc c => 10 * acc + (c.toNat - '0'.toNat)) 0

/-- Generic `re.finditer` driver: `m` is applied to every suffix of the
line; a successful match at position `pos` yields a value and a matched
length, and scanning resumes after the match (non-overlapping, exactly
Python's semantics for the patterns used here, none of which can match the
empty string).  Returns `(position, value, length)` triples. -/
def finditerAux (m : Str → Option (α × Nat)) : Nat → Nat → Str → List (Nat × α × Nat)
  | 0, _, _ => []
  | _ + 1, _, [] => []
  | fuel + 1, pos, a :: s =>
    match m (a :: s) with
    | some (v, L) =>
      (pos, v, L) :: finditerAux m fuel (pos + max L 1) ((a :: s).drop (max L 1))
    | none => finditerAux m fuel (pos + 1) s

def finditer (m : Str → Option (α × Nat)) (line : Str) : List (Nat × α × Nat) :=
  finditerAux m line.length 0 line

/-! ## Data model (`app/schemas.py`) -/

/-- One detected defect (`CheckIssue` in `app/schemas.py`). -/
structure CheckIssue where
  type : Str
  severity : Str
  location : Str
  context : Str := []
  original : Str
  suggestion : Str
  source : Str := "rule".data
deriving DecidableEq, Repr

/-- `CheckResult` in `app/schemas.py`. -/
structure CheckResult where
  total_issues : Nat
  issues : List CheckIssue
deriving DecidableEq, Repr

/-- The rule toggles read by `RuleChecker.check` / `_check_line` via
`config.get(key, True)`; `DEFAULT_RULE_CONFIG` has them all true. -/
structure RuleConfig where
  check_number_format : Bool := true
  check_missing_number : Bool := true
  check_extra_spaces : Bool := true
  check_english_punctuation : Bool := true
  check_slash_to_semicolon : Bool := true
  check_consecutive_punctuation : Bool := true
  check_ending_punctuation : Bool := true
  check_english_brackets : Bool := true
  check_number_sequence : Bool := true
  check_mid_sentence_period : Bool := true
deriving DecidableEq, Repr

def defaultRuleConfig : RuleConfig := {}

/-! ## Rule scanner (`app/services/checker/rule_checker.py`) -/

/-- The `[一-龥]` character class used throughout the scanner. -/
def isCJKChar (c : Char) : Bool :=
  0x4e00 ≤ c.toNat && c.toNat ≤ 0x9fa5

/-- `line[:n] + "..." if len(line) > n else line`. -/
def ctxTrunc (line : Str) (n : Nat) : Str :=
  if n < line.length then line.take n ++ "...".data else line

/-- `re.match(r'^(\d+)\.(\d+)\.?(.{0,3})', line)`: leading digits, a dot,
more digits, an optional dot, then up to three further characters
(greedy, not crossing a newline).  Group 2 is non-empty whenever the
pattern matches, so the code's extra `match.group(2)` test is redundant. -/
def parseDup (line : Str) : Option (Str × Str × Bool × Str) :=
  let g1 := line.takeWhile Char.isDigit
  if g1.isEmpty then none else
  match line.drop g1.length with
  | '.' :: r2 =>
    let g2 := r2.takeWhile Char.isDigit
    if g2.isEmpty then none else
    match r2.drop g2.length with
    | '.' :: r4 => some (g1, g2, true, (r4.takeWhile (· ≠ '\n')).take 3)
    | r3 => some (g1, g2, false, (r3.takeWhile (· ≠ '\n')).take 3)
  | _ => none

/-- `re.match(r'^(\d+)m', line)` for a single marker character `m`. -/
def parseMarker (m : Char) (line : Str) : Option Str :=
  let g1 := line.takeWhile Char.isDigit
  if g1.isEmpty then none else
  match line.drop g1.length with
  | c :: _ => if c = m then some g1 else none
  | [] => none

/-- `re.match(r'^o(\d+)c', line)` for paren characters `o`, `c`. -/
def parseParen (o c : Char) (line : Str) : Option Str :=
  match line with
  | a :: r =>
    if a = o then
      let g1 := r.takeWhile Char.isDigit
      if g1.isEmpty then none else
      match r.drop g1.length with
      | b :: _ => if b = c then some g1 else none
      | [] => none
    else none
  | [] => none

/-- `re.match(r'^(\d+)\.\s+', line)`: canonical marker followed by stray
whitespace; returns the digits and the whitespace run. -/
def parseDotSpace (line : Str) : Option (Str × Str) :=
  let g1 := line.takeWhile Char.isDigit
  if g1.isEmpty then none else
  match line.drop g1.length with
  | '.' :: r2 =>
    let ws := r2.takeWhile isPySpace
    if ws.isEmpty then none else some (g1, ws)
  | _ => none

/-- `RuleChecker._check_number_format`.  Each matching branch returns
immediately, so at most one issue is produced per line. -/
def numberFormatCheck (line loc : Str) : List CheckIssue :=
  match parseDup line with
  | some (g1, g2, _, g3) =>
    let dupPart :=
      if (g1 ++ '.' :: g2 ++ ['.']).isPrefixOf line
      then g1 ++ '.' :: g2 ++ ['.'] else g1 ++ '.' :: g2
    [{ type := "format".data, severity := "error".data, location := loc,
       context := ctxTrunc line 30,
       original := dupPart ++ g3, suggestion := g1 ++ '.' :: g3 }]
  | none =>
  match parseMarker '、' line with
  | some g1 =>
    [{ type := "format".data, severity := "error".data, location := loc,
       context := ctxTrunc line 20,
       original := g1 ++ ['、'], suggestion := g1 ++ ['.'] }]
  | none =>
  match parseMarker '。' line with
  | some g1 =>
    [{ type := "format".data, severity := "error".data, location := loc,
       context := ctxTrunc line 20,
       original := g1 ++ ['。'], suggestion := g1 ++ ['.'] }]
  | none =>
  match parseParen '（' '）' line with
  | some g1 =>
    [{ type := "format".data, severity := "error".data, location := loc,
       context := ctxTrunc line 20,
       original := '（' :: g1 ++ ['）'], suggestion := g1 ++ ['.'] }]
  | none =>
  match parseParen '(' ')' line with
  | some g1 =>
    [{ type := "format".data, severity := "error".data, location := loc,
       context := ctxTrunc line 20,
       original := '(' :: g1 ++ [')'], suggestion := g1 ++ ['.'] }]
  | none =>
  match parseDotSpace line with
  | some (g1, ws) =>
    [{ type := "format".data, severity := "error".data, location := loc,
       context := ctxTrunc line 25,
       original := g1 ++ '.' :: ws, suggestion := g1 ++ ['.'] }]
  | none => []

/-- Second character class of `_check_extra_spaces`:
`[一-龥：；，。、]`. -/
def isSpacePunctClass (c : Char) : Bool :=
  isCJKChar c || c = '：' || c = '；' || c = '，' || c = '。' || c = '、'

/-- Matcher for `r'([一-龥])\s+([一-龥：；，。、])'`:
returns the two captured characters and the matched length. -/
def extraSpacesMatcher (s : Str) : Option ((Char × Char) × Nat) :=
  match s with
  | c1 :: r =>
    if isCJKChar c1 then
      let ws := r.takeWhile isPySpace
      if ws.isEmpty then none else
      match r.drop ws.length with
      | c2 :: _ =>
        if isSpacePunctClass c2 then some ((c1, c2), ws.length + 2) else none
      | [] => none
    else none
  | [] => none

/-- `RuleChecker._check_extra_spaces`. -/
def extraSpacesCheck (line loc : Str) : List CheckIssue :=
  (finditer extraSpacesMatcher line).map (fun pL =>
    { type := "format".data, severity := "warning".data, location := loc,
      context := pySliceNat line (pL.1 - 5) (pL.1 + pL.2.2 + 5),
      original := pySliceNat line pL.1 (pL.1 + pL.2.2),
      suggestion := [pL.2.1.1, pL.2.1.2] })

/-- The ASCII→CJK map of `_check_english_punctuation`. -/
def punctuationMap : List (Char × Char) :=
  [(',', '，'), (';', '；'), ('?', '？'), ('!', '！')]

/-- `RuleChecker._check_english_punctuation`: each mapped ASCII mark, then
colons outside the digit-flanked (time-of-day) exception. -/
def englishPunctCheck (line loc : Str) : List CheckIssue :=
  (punctuationMap.flatMap (fun p =>
    (charPositions p.1 line).map (fun pos =>
      { type := "punctuation".data, severity := "error".data, location := loc,
        context := pySliceNat line (pos - 5) (pos + 1 + 5),
        original := [p.1], suggestion := [p.2] }))) ++
  ((charPositions ':' line).filter (fun pos =>
      !(0 < pos && pos < line.length - 1 &&
        (line.getD (pos - 1) ' ').isDigit && (line.getD (pos + 1) ' ').isDigit)
    )).map (fun pos =>
    { type := "punctuation".data, severity := "error".data, location := loc,
      context := pySliceNat line (pos - 5) (pos + 1 + 5),
      original := [':'], suggestion := ['：'] })

/-- Matcher for `r'[一-龥]/[一-龥]'`. -/
def slashMatcher (s : Str) : Option (Unit × Nat) :=
  match s with
  | c1 :: '/' :: c2 :: _ =>
    if isCJKChar c1 && isCJKChar c2 then some ((), 3) else none
  | _ => none

/-- `RuleChecker._check_slash`. -/
def slashCheck (line loc : Str) : List CheckIssue :=
  (finditer slashMatcher line).map (fun pL =>
    { type := "punctuation".data, severity := "error".data, location := loc,
      context := pySliceNat line (pL.1 - 3) (pL.1 + 3 + 3),
      original := ['/'], suggestion := ['；'] })

/-- The `[，。；：、]` class of `_check_consecutive_punctuation`. -/
def cjkPunctSet (c : Char) : Bool :=
  c = '，' || c = '。' || c = '；' || c = '：' || c = '、'

/-- Matcher for `r'([，。；：、])\1+'` (greedy maximal run). -/
def consecMatcher (s : Str) : Option (Char × Nat) :=
  match s with
  | c :: r =>
    if cjkPunctSet c then
      let k := (r.takeWhile (· = c)).length
      if k = 0 then none else some (c, k + 1)
    else none
  | [] => none

/-- The six mixed CJK/ASCII two-character patterns with their
replacements. -/
def mixedPatterns : List (Char × Char × Char) :=
  [('。', '.', '。'), ('.', '。', '。'), ('，', ',', '，'),
   (',', '，', '，'), ('；', ';', '；'), (';', '；', '；')]

def mixedMatcher (p1 p2 : Char) (s : Str) : Option (Unit × Nat) :=
  match s with
  | a :: b :: _ => if a = p1 && b = p2 then some ((), 2) else none
  | _ => none

/-- `RuleChecker._check_consecutive_punctuation`: repeated CJK marks, then
the six mixed-pair patterns. -/
def consecutiveCheck (line loc : Str) : List CheckIssue :=
  (finditer consecMatcher line).map (fun pL =>
    { type := "punctuation".data, severity := "error".data, location := loc,
      context := pySliceNat line (pL.1 - 3) (pL.1 + pL.2.2 + 3),
      original := pySliceNat line pL.1 (pL.1 + pL.2.2),
      suggestion := [pL.2.1] }) ++
  mixedPatterns.flatMap (fun p =>
    (finditer (mixedMatcher p.1 p.2.1) line).map (fun pL =>
      { type := "punctuation".data, severity := "error".data, location := loc,
        context := pySliceNat line (pL.1 - 3) (pL.1 + 2 + 3),
        original := pySliceNat line pL.1 (pL.1 + 2),
        suggestion := [p.2.2] }))

/-- `RuleChecker._check_english_brackets`. -/
def bracketsCheck (line loc : Str) : List CheckIssue :=
  ((charPositions '(' line).flatMap (fun pos =>
    match pyFindFrom ')' line pos with
    | some closePos =>
      if pos < closePos then
        if (pySliceNat line (pos + 1) closePos).any isCJKChar then
          [{ type := "punctuation".data, severity := "error".data, location := loc,
             context := pySliceNat line (pos - 3) (closePos + 4),
             original := ['('], suggestion := ['（'] }]
        else []
      else []
    | none => [])) ++
  ((charPositions ')' line).flatMap (fun pos =>
    match pyRfindBefore '(' line pos with
    | some openPos =>
      if (pySliceNat line (openPos + 1) pos).any isCJKChar then
        [{ type := "punctuation".data, severity := "error".data, location := loc,
           context := pySliceNat line (pos - 3) (pos + 4),
           original := [')'], suggestion := ['）'] }]
      else []
    | none => []))

/-- `re.sub(r'^\d+[.、。]\s*', '', line)`: strip the leading numbering. -/
def stripLeadingNumber (line : Str) : Str :=
  let g1 := line.takeWhile Char.isDigit
  if g1.isEmpty then line else
  match line.drop g1.length with
  | c :: r => if c = '.' || c = '、' || c = '。' then r.dropWhile isPySpace else line
  | [] => line

/-- The candidate window of `_check_mid_sentence_period` for loop variable
`length`: `content[max(0, pos - (length - 4)) : min(len(content), pos + (length - 3))]`
(the end bound may be negative, hence the integer slice). -/
def midWindowSlice (content : Str) (pos L : Nat) : Str :=
  pySliceInt content (max 0 ((pos : Int) - ((L : Int) - 4)))
                     (min (content.length : Int) ((pos : Int) + ((L : Int) - 3)))

/-- The `original` computed by `_check_mid_sentence_period` for the stop at
`pos`: first window in the growth schedule that occurs exactly once in the
whole line, defaulting to the initial context window. -/
def midOriginal (content line : Str) (pos : Nat) : Str :=
  let ctx := pySliceNat content (pos - 3) (pos + 4)
  match (List.range' ctx.length (min content.length (pos + 10) - ctx.length)).find?
      (fun L => pyCount line (midWindowSlice content pos L) == 1) with
  | some L => midWindowSlice content pos L
  | none => ctx

/-- `RuleChecker._check_mid_sentence_period`. -/
def midPeriodCheck (line loc : Str) : List CheckIssue :=
  if line.isEmpty then [] else
  let content := stripLeadingNumber line
  if content.isEmpty then [] else
  ((charPositions '。' content).filter (fun pos => pos < content.length - 1)).map
    (fun pos =>
      let original := midOriginal content line pos
      { type := "punctuation".data, severity := "error".data, location := loc,
        context := if 40 < content.length then content.take 40 ++ "...".data else content,
        original := original,
        suggestion := replaceFirstChar '。' '；' original })

/-- `re.match(r'^\d+\.$', line)`: a bare numbering marker. -/
def isBareMarker (line : Str) : Bool :=
  let g1 := line.takeWhile Char.isDigit
  !g1.isEmpty && line.drop g1.length == ['.']

/-- `get_unique_ending` inside `_check_ending_punctuation`: shortest line
suffix of length 2 to 19 occurring exactly once in the line, else the
whole line. -/
def get_unique_ending (line : Str) : Str :=
  match (List.range' 2 (min (line.length + 1) 20 - 2)).find?
      (fun L => pyCount line (line.drop (line.length - L)) == 1) with
  | some L => line.drop (line.length - L)
  | none => line

/-- `line[-15:] if len(line) > 15 else line`. -/
def endingContext (line : Str) : Str :=
  if 15 < line.length then line.drop (line.length - 15) else line

/-- `RuleChecker._check_ending_punctuation`. -/
def endingPunctCheck (line loc : Str) : List CheckIssue :=
  if line.isEmpty then [] else
  if isBareMarker line then [] else
  let lastChar := line.getLastD ' '
  if lastChar = '；' then
    let e := get_unique_ending line
    [{ type := "punctuation".data, severity := "error".data, location := loc,
       context := endingContext line, original := e,
       suggestion := e.dropLast ++ ['。'] }]
  else if lastChar = '.' then
    let e := get_unique_ending line
    [{ type := "punctuation".data, severity := "error".data, location := loc,
       context := endingContext line, original := e,
       suggestion := e.dropLast ++ ['。'] }]
  else if lastChar = '！' then
    let e := get_unique_ending line
    [{ type := "punctuation".data, severity := "error".data, location := loc,
       context := endingContext line, original := e,
       suggestion := e.dropLast ++ ['。'] }]
  else if lastChar ≠ '。' ∧ lastChar ≠ '？' ∧ lastChar ≠ '）' then
    let e := get_unique_ending line
    [{ type := "punctuation".data, severity := "error".data, location := loc,
       context := endingContext line, original := e,
       suggestion := e ++ ['。'] }]
  else []

/-- `RuleChecker._check_line`: the eight toggled per-line checks, in the
source's order. -/
def checkLineIssues (config : RuleConfig) (line loc : Str) : List CheckIssue :=
  (if config.check_number_format then numberFormatCheck line loc else []) ++
  (if config.check_extra_spaces then extraSpacesCheck line loc else []) ++
  (if config.check_english_punctuation then englishPunctCheck line loc else []) ++
  (if config.check_slash_to_semicolon then slashCheck line loc else []) ++
  (if config.check_consecutive_punctuation then consecutiveCheck line loc else []) ++
  (if config.check_english_brackets then bracketsCheck line loc else []) ++
  (if config.check_ending_punctuation then endingPunctCheck line loc else []) ++
  (if config.check_mid_sentence_period then midPeriodCheck line loc else [])

/-- Loop state of `RuleChecker.check`. -/
structure ScanState where
  current_section : Str := []
  item_index : Nat := 0
  line_index_in_section : Nat := 0
  last_number : Nat := 0
deriving DecidableEq, Repr

/-- `re.match(r'^(\d+)[.、。]', line)` followed by `int(match.group(1))`. -/
def parseSeqNumber (line : Str) : Option Nat :=
  let g1 := line.takeWhile Char.isDigit
  if g1.isEmpty then none else
  match line.drop g1.length with
  | c :: _ =>
    if c = '.' || c = '、' || c = '。' then some (digitsToNat g1) else none
  | [] => none

/-- The renumbering issue of the sequence-gap check; `original` and
`suggestion` interpolate the parsed and the expected number followed by an
ASCII period. -/
def seqIssue (line loc : Str) (current expected : Nat) : CheckIssue :=
  { type := "format".data, severity := "error".data, location := loc,
    context := ctxTrunc line 30,
    original := natChars current ++ ['.'],
    suggestion := natChars expected ++ ['.'] }

/-- The missing-number issue for a non-itemized line inside a section. -/
def missingNumberIssue (line loc : Str) : CheckIssue :=
  { type := "format".data, severity := "error".data, location := loc,
    context := ctxTrunc line 30,
    original := if 10 < line.length then line.take 10 else line,
    suggestion :=
      if 10 < line.length then '1' :: '.' :: line.take 10 else '1' :: '.' :: line }

/-- One iteration of the line loop in `RuleChecker.check`. -/
def ruleScanStep (config : RuleConfig) (st : ScanState) (rawLine : Str) :
    ScanState × List CheckIssue :=
  let line := pyStrip rawLine
  if line.isEmpty then (st, [])
  else if containsSub "本周工作".data line then
    ({ current_section := "本周工作".data }, [])
  else if containsSub "下周计划".data line then
    ({ current_section := "下周计划".data }, [])
  else
    let st1 :=
      if st.current_section.isEmpty then st
      else { st with line_index_in_section := st.line_index_in_section + 1 }
    if (line.headD ' ').isDigit then
      let st2 := { st1 with item_index := st1.item_index + 1 }
      let loc :=
        st2.current_section ++ "第".data ++ natChars st2.item_index ++ "条".data
      let lineIssues := checkLineIssues config line loc
      if config.check_number_sequence then
        match parseSeqNumber line with
        | some current =>
          let expected := st2.last_number + 1
          (({ st2 with last_number := st2.last_number + 1 }),
           lineIssues ++
             (if 0 < st2.last_number ∧ current ≠ expected
              then [seqIssue line loc current expected] else []))
        | none => (st2, lineIssues)
      else (st2, lineIssues)
    else if !st1.current_section.isEmpty && config.check_missing_number then
      let loc :=
        st1.current_section ++ "第".data ++
          natChars st1.line_index_in_section ++ "行".data
      (st1, [missingNumberIssue line loc])
    else (st1, [])

def ruleCheckLines (config : RuleConfig) : ScanState → List Str → List CheckIssue
  | _, [] => []
  | st, l :: rest =>
    let step := ruleScanStep config st l
    step.2 ++ ruleCheckLines config step.1 rest

/-- `RuleChecker.check`: the rule scanner over a whole text.  The
configuration (loaded from the database in the source) is a parameter. -/
def ruleCheck (content : Str) (config : RuleConfig) : List CheckIssue :=
  ruleCheckLines config {} (splitOnNl content)

/-! ## Section splitter and orchestrators (`app/routers/check.py`) -/

/-- The splitting loop of Python `content.split(sep)` for non-empty `sep`;
`fuel` bounds the recursion, `pySplit` supplies enough. -/
def pySplitAux (sep : Str) : Nat → Str → List Str
  | 0, s => [s]
  | fuel + 1, s =>
    match findSub sep s with
    | none => [s]
    | some i => s.take i :: pySplitAux sep fuel (s.drop (i + sep.length))

/-- Python `content.split(sep)` for non-empty `sep`. -/
def pySplit (sep s : Str) : List Str :=
  pySplitAux sep (s.length + 1) s

/-- `split_content_sections` in `app/routers/check.py`. -/
def split_content_sections (content : Str) : List Str :=
  let sections :=
    if containsSub "本周工作".data content && containsSub "下周计划".data content then
      match pySplit "下周计划".data content with
      | [p0, p1] => [pyStrip p0, "下周计划".data ++ pyStrip p1]
      | _ => []
    else []
  if sections.isEmpty then [content] else sections

/-- The dedup key `(issue.location, issue.original, issue.suggestion)`. -/
def issueKey (i : CheckIssue) : Str × Str × Str :=
  (i.location, i.original, i.suggestion)

/-- The dedup loop shared by `combined_check` and the streaming endpoint:
keep the first occurrence of each `(location, original, suggestion)` key. -/
def dedupIssuesAux (seen : List (Str × Str × Str)) : List CheckIssue → List CheckIssue
  | [] => []
  | i :: rest =>
    if issueKey i ∈ seen then dedupIssuesAux seen rest
    else i :: dedupIssuesAux (issueKey i :: seen) rest

def dedupIssues (issues : List CheckIssue) : List CheckIssue :=
  dedupIssuesAux [] issues

/-- Outcome of one awaited AI-checker task as observed by
`asyncio.gather(..., return_exceptions=True)`: a result list, a
`ValueError` (the agents' error channel) or any other exception. -/
inductive TaskOutcome where
  | ok (issues : List CheckIssue)
  | valueError (msg : Str)
  | otherError
deriving DecidableEq, Repr

def TaskOutcome.issuesOr : TaskOutcome → List CheckIssue
  | .ok l => l
  | _ => []

def TaskOutcome.errMsg? : TaskOutcome → Option Str
  | .valueError m => some m
  | _ => none

/-- `combined_check` in `app/routers/check.py`.  The rule scanner runs on
the whole text; one AI task per (section × checker) pair is awaited in
launch order, its outcome supplied by the `outcomes` parameter (the model
call is external).  If any task raised `ValueError` the whole check fails
with the joined messages (`AICheckError`); otherwise the merged list is
deduplicated. -/
def combined_check (content : Str) (config : RuleConfig)
    (outcomes : Nat → TaskOutcome) : Except Str (List CheckIssue) :=
  let ruleIssues := ruleCheck content config
  let sections := split_content_sections content
  let results := (List.range (2 * sections.length)).map outcomes
  let aiErrors := results.filterMap TaskOutcome.errMsg?
  let allIssues := ruleIssues ++ results.flatMap TaskOutcome.issuesOr
  if aiErrors.isEmpty then .ok (dedupIssues allIssues)
  else .error (joinSemicolon aiErrors)

/-- One server-sent event of the streaming endpoint
(`check_content_stream`): the JSON payloads carry a `step`, optionally a
`message`, a `completed` flag, an `error` and a terminal `result`. -/
structure StreamEvent where
  step : Str
  message : Option Str := none
  completed : Bool := false
  error : Option Str := none
  result : Option CheckResult := none
deriving DecidableEq, Repr

/-- Events emitted for one try/except AI stage that has no success
completion event (`typo_weekly` / `typo_next`). -/
def typoStageEvents (name msg : Str) (outcome : Except Str (List CheckIssue)) :
    List StreamEvent :=
  { step := name, message := some msg } ::
    (match outcome with
     | .ok _ => []
     | .error e => [{ step := name, error := some e }])

/-- Events emitted for one try/except AI stage that emits a completion
event on success (`punct_weekly` / `punct_next`). -/
def punctStageEvents (name msg done : Str)
    (outcome : Except Str (List CheckIssue)) : List StreamEvent :=
  { step := name, message := some msg } ::
    (match outcome with
     | .ok _ => [{ step := name, completed := true, message := some done }]
     | .error e => [{ step := name, error := some e }])

def Except.issuesOr : Except Str (List CheckIssue) → List CheckIssue
  | .ok l => l
  | .error _ => []

/-- Events emitted for the rule stage of `generate()` (`rule_checker.check`
wrapped in try/except). -/
def ruleStageEvents (ruleO : Except Str (List CheckIssue)) : List StreamEvent :=
  { step := "rule".data, message := some "正在检查格式与标点规范...".data } ::
    (match ruleO with
     | .ok _ =>
       [{ step := "rule".data, completed := true,
          message := some "格式规范检查完成".data }]
     | .error e =>
       [{ step := "rule".data, error := some ("规则检查失败: ".data ++ e) }])

/-- All events of `generate()` before the terminal `done` event. -/
def streamPrefixEvents (content : Str)
    (ruleO t1 p1 t2 p2 : Except Str (List CheckIssue)) : List StreamEvent :=
  ruleStageEvents ruleO ++
  typoStageEvents "typo_weekly".data "正在分析本周工作内容...".data t1 ++
  punctStageEvents "punct_weekly".data "正在优化本周工作表达...".data
    "本周工作分析完成".data p1 ++
  (if (split_content_sections content).length = 2 then
    typoStageEvents "typo_next".data "正在分析下周计划内容...".data t2 ++
    punctStageEvents "punct_next".data "正在优化下周计划表达...".data
      "下周计划分析完成".data p2
   else [])

/-- The issues accumulated into `all_issues` by the end of `generate()`:
each stage that succeeded contributes its list, in stage order; the
second-section stages run only when the splitter produced two sections. -/
def streamCollected (content : Str)
    (ruleO t1 p1 t2 p2 : Except Str (List CheckIssue)) : List CheckIssue :=
  ruleO.issuesOr ++ t1.issuesOr ++ p1.issuesOr ++
    (if (split_content_sections content).length = 2 then
      t2.issuesOr ++ p2.issuesOr else [])

/-- The terminal event of `generate()` with the deduplicated result. -/
def streamDoneEvent (content : Str)
    (ruleO t1 p1 t2 p2 : Except Str (List CheckIssue)) : StreamEvent :=
  { step := "done".data, completed := true,
    message := some "智能校对完成".data,
    result := some
      ⟨(dedupIssues (streamCollected content ruleO t1 p1 t2 p2)).length,
        dedupIssues (streamCollected content ruleO t1 p1 t2 p2)⟩ }

/-- The event sequence produced by the `generate()` coroutine of
`check_content_stream` once the stream has completed.  Each awaited stage
call is a parameter (`ruleO` abstracts `rule_checker.check` including its
configuration load; `t1`, `p1`, `t2`, `p2` the four agent calls); a stage
whose call raises contributes an error event and no issues. -/
def generateStream (content : Str)
    (ruleO t1 p1 t2 p2 : Except Str (List CheckIssue)) : List StreamEvent :=
  streamPrefixEvents content ruleO t1 p1 t2 p2 ++
    [streamDoneEvent content ruleO t1 p1 t2 p2]

/-! ## AI agents (`deepseek_checker.py`, `punctuation_ai_checker.py`) -/

/-- One parsed entry of the model's reply JSON, with the `.get(k, "")`
defaults already applied. -/
structure RawItem where
  location : Str := []
  context : Str := []
  original : Str := []
  suggestion : Str := []
deriving DecidableEq, Repr

/-- Outcome of one attempt of `DeepSeekChecker.check` /
`PunctuationAIChecker.check`, as classified by the source's exception
paths: the chat call raised (`callError`), `_extract_json` returned `None`
(`extractFail`), `json.loads` raised (`decodeError`), or a JSON object was
obtained (`parsed`).  The model transport and Python's JSON parser are
external, so the attempt outcome is the natural interface. -/
inductive AttemptOutcome where
  | callError (msg : Str)
  | extractFail
  | decodeError (msg : Str)
  | parsed (items : List RawItem)
deriving DecidableEq, Repr

def AttemptOutcome.isFail : AttemptOutcome → Bool
  | .parsed _ => false
  | _ => true

/-- The per-call post-filter loop shared by both agents: deduplicate by
`(location, original, suggestion)` (keys recorded before validity checks,
as in the source), drop entries with empty or equal `original`/
`suggestion`, and tag the survivors. -/
def postFilterAux (ty sev src : Str) (seen : List (Str × Str × Str)) :
    List RawItem → List CheckIssue
  | [] => []
  | item :: rest =>
    let key := (item.location, item.original, item.suggestion)
    if key ∈ seen then postFilterAux ty sev src seen rest
    else
      let seen' := key :: seen
      if item.original.isEmpty || item.suggestion.isEmpty ||
          item.original == item.suggestion then
        postFilterAux ty sev src seen' rest
      else
        { type := ty, severity := sev, location := item.location,
          context := item.context, original := item.original,
          suggestion := item.suggestion, source := src } ::
          postFilterAux ty sev src seen' rest

/-- `max_retries = 1` in both agents. -/
def maxRetries : Nat := 1

/-- `DeepSeekChecker.check` from `retry_count` onwards, for a configured
and enabled checker: a parsed reply is post-filtered and returned; any
failure retries while `retry_count < max_retries` and otherwise raises
`ValueError` with the source's message. -/
def typoCheckFrom (attempt : Nat → AttemptOutcome) (rc : Nat) :
    Except Str (List CheckIssue) :=
  match attempt rc with
  | .parsed items =>
    .ok (postFilterAux "typo".data "warning".data "ai_typo".data [] items)
  | .extractFail =>
    if h : rc < maxRetries then typoCheckFrom attempt (rc + 1)
    else .error "AI 返回格式错误，无法解析 JSON".data
  | .decodeError m =>
    if h : rc < maxRetries then typoCheckFrom attempt (rc + 1)
    else .error ("AI 错字检查返回格式错误: ".data ++ m)
  | .callError m =>
    if h : rc < maxRetries then typoCheckFrom attempt (rc + 1)
    else .error ("AI 错字检查失败: ".data ++ m)
termination_by maxRetries + 1 - rc
decreasing_by all_goals omega

/-- `DeepSeekChecker.check(content)`: short-circuits to `[]` when no API
key is configured or the typo checker is disabled, else runs the retry
loop from `retry_count = 0`. -/
def typoCheck (hasApiKey checkTypoEnabled : Bool)
    (attempt : Nat → AttemptOutcome) : Except Str (List CheckIssue) :=
  if !hasApiKey then .ok []
  else if !checkTypoEnabled then .ok []
  else typoCheckFrom attempt 0

/-- `PunctuationAIChecker.check` from `retry_count` onwards (identical
control flow to the typo checker, different tags and messages). -/
def punctCheckFrom (attempt : Nat → AttemptOutcome) (rc : Nat) :
    Except Str (List CheckIssue) :=
  match attempt rc with
  | .parsed items =>
    .ok (postFilterAux "punctuation".data "error".data "ai_punctuation".data [] items)
  | .extractFail =>
    if h : rc < maxRetries then punctCheckFrom attempt (rc + 1)
    else .error "AI 返回格式错误，无法解析 JSON".data
  | .decodeError m =>
    if h : rc < maxRetries then punctCheckFrom attempt (rc + 1)
    else .error ("AI 标点检查返回格式错误: ".data ++ m)
  | .callError m =>
    if h : rc < maxRetries then punctCheckFrom attempt (rc + 1)
    else .error ("AI 标点检查失败: ".data ++ m)
termination_by maxRetries + 1 - rc
decreasing_by all_goals omega

/-- `PunctuationAIChecker.check(content)`. -/
def punctCheck (hasApiKey checkPunctEnabled : Bool)
    (attempt : Nat → AttemptOutcome) : Except Str (List CheckIssue) :=
  if !hasApiKey then .ok []
  else if !checkPunctEnabled then .ok []
  else punctCheckFrom attempt 0

/-- Modelled from the spec: the "minimal unique trailing window" of a
line containing a character — the shortest trailing window (any length
from 1) that occurs exactly once in the line and contains the character.
Used to compare the specified `original` of the terminal-punctuation
rewrite against the code's `get_unique_ending`, whose search starts at
length 2. -/
def specMinimalTrailingWindow (line : Str) (c : Char) : Option Str :=
  ((List.range' 1 line.length).find? (fun L =>
      pyCount line (line.drop (line.length - L)) == 1 &&
      (line.drop (line.length - L)).contains c)).map
    (fun L => line.drop (line.length - L))

instance : DecidableEq (Except Str (List CheckIssue)) := fun a b =>
  match a, b with
  | .ok x, .ok y => if h : x = y then isTrue (by rw [h]) else isFalse (by simp [h])
  | .error x, .error y => if h : x = y then isTrue (by rw [h]) else isFalse (by simp [h])
  | .ok _, .error _ => isFalse (by simp)
  | .error _, .ok _ => isFalse (by simp)

/-! ## Supporting lemmas -/

theorem containsSub_iff {sub s : Str} : containsSub sub s = true ↔ sub <:+: s := by
  induction s with
  | nil =>
    simp only [containsSub, List.isPrefixOf_iff_prefix, List.prefix_nil]
    exact ⟨fun h => h ▸ List.infix_rfl, fun h => List.eq_nil_of_infix_nil h⟩
  | cons a t ih =>
    simp only [containsSub, Bool.or_eq_true, List.isPrefixOf_iff_prefix, ih,
      List.infix_cons_iff]

theorem pyCountAux_pos {sub : Str} :
    ∀ {fuel : Nat} {s : Str}, 0 < pyCountAux sub fuel s → sub <:+: s := by
  intro fuel
  induction fuel with
  | zero => intro s h; simp [pyCountAux] at h
  | succ fuel ih =>
    intro s h
    match s with
    | [] => simp [pyCountAux] at h
    | a :: t =>
      by_cases hp : sub.isPrefixOf (a :: t)
      · exact (List.isPrefixOf_iff_prefix.mp hp).isInfix
      · simp only [pyCountAux, hp, if_false] at h
        exact (ih h).trans (List.suffix_cons a t).isInfix

theorem infix_of_pyCount_pos {line w : Str} (hw : w ≠ [])
    (h : 0 < pyCount line w) : w <:+: line := by
  have he : w.isEmpty = false := by
    cases w with
    | nil => exact absurd rfl hw
    | cons a t => rfl
  unfold pyCount at h
  rw [he] at h
  exact pyCountAux_pos h

theorem pySliceNat_infix_self (s : Str) (a b : Nat) : pySliceNat s a b <:+: s :=
  ((List.drop_suffix a (s.take b)).isInfix).trans ((List.take_prefix b s).isInfix)

theorem pySliceInt_infix_self (s : Str) (a b : Int) : pySliceInt s a b <:+: s := by
  unfold pySliceInt
  exact pySliceNat_infix_self ..

theorem mem_charPositions {c : Char} {s : Str} {i : Nat} :
    i ∈ charPositions c s ↔ i < s.length ∧ s.getD i ' ' = c := by
  simp [charPositions, List.mem_filter, List.mem_range]

theorem mem_of_getD {s : Str} {i : Nat} {c : Char} (h : i < s.length)
    (he : s.getD i ' ' = c) : c ∈ s := by
  subst he
  rw [List.getD_eq_getElem?_getD, List.getElem?_eq_getElem h]
  exact List.getElem_mem h

theorem singleton_infix_of_mem {c : Char} {s : Str} (h : c ∈ s) : [c] <:+: s := by
  obtain ⟨l₁, l₂, rfl⟩ := List.append_of_mem h
  exact ⟨l₁, l₂, by simp⟩

theorem finditerAux_mem {α : Type} {m : Str → Option (α × Nat)} {line : Str} :
    ∀ {fuel pos : Nat} {s : Str} {p : Nat} {v : α} {L : Nat},
      s = line.drop pos → (p, v, L) ∈ finditerAux m fuel pos s →
      m (line.drop p) = some (v, L) := by
  intro fuel
  induction fuel with
  | zero => intro pos s p v L _ h; simp [finditerAux] at h
  | succ fuel ih =>
    intro pos s p v L hs h
    match s, hs with
    | [], _ => simp [finditerAux] at h
    | a :: t, hs =>
      simp only [finditerAux] at h
      cases hm : m (a :: t) with
      | none =>
        rw [hm] at h
        have ht : t = line.drop (pos + 1) := by
          have h1 := congrArg (List.drop 1) hs
          simpa [List.drop_drop] using h1
        exact ih ht h
      | some vL =>
        rw [hm] at h
        rw [List.mem_cons] at h
        rcases h with h | h
        · simp only [Prod.mk.injEq] at h
          obtain ⟨rfl, rfl, rfl⟩ := h
          rw [← hs, hm]
        · have ht : (a :: t).drop (max vL.2 1) = line.drop (pos + max vL.2 1) := by
            rw [hs, List.drop_drop]
          exact ih ht h

theorem finditer_mem {α : Type} {m : Str → Option (α × Nat)} {line : Str}
    {p : Nat} {v : α} {L : Nat} (h : (p, v, L) ∈ finditer m line) :
    m (line.drop p) = some (v, L) :=
  finditerAux_mem (by simp) h

theorem replaceFirstChar_ne {c d : Char} (hcd : c ≠ d) :
    ∀ {s : Str}, c ∈ s → replaceFirstChar c d s ≠ s := by
  intro s
  induction s with
  | nil => intro hs; cases hs
  | cons a t ih =>
    intro hs
    by_cases hac : a = c
    · subst hac
      simp only [replaceFirstChar, if_pos rfl]
      intro h
      injection h with h1 _
      exact hcd h1.symm
    · have hct : c ∈ t := by
        rcases List.mem_cons.mp hs with h | h
        · exact absurd h.symm hac
        · exact h
      simp only [replaceFirstChar, if_neg hac]
      intro h
      injection h with _ h2
      exact ih hct h2

theorem getLast?_of_suffix {l s : Str} (h : s <:+ l) (hs : s ≠ []) :
    l.getLast? = s.getLast? := by
  obtain ⟨t, rfl⟩ := h
  rw [List.getLast?_append]
  cases hg : s.getLast? with
  | none => exact absurd (List.getLast?_eq_none_iff.mp hg) hs
  | some a => rfl

theorem ne_of_getLast?_ne {l1 l2 : Str} (h : l1.getLast? ≠ l2.getLast?) :
    l1 ≠ l2 := fun e => h (e ▸ rfl)

theorem ne_of_length_ne {l1 l2 : Str} (h : l1.length ≠ l2.length) : l1 ≠ l2 :=
  fun e => h (e ▸ rfl)

theorem digitChar_isDigit {d : Nat} (h : d < 10) : (Nat.digitChar d).isDigit := by
  interval_cases d <;> decide

theorem digitChar_inj {d e : Nat} (hd : d < 10) (he : e < 10)
    (h : Nat.digitChar d = Nat.digitChar e) : d = e := by
  interval_cases d <;> interval_cases e <;> revert h <;> decide

theorem natCharsAux_eq_digits :
    ∀ (fuel : Nat) {n : Nat}, n ≠ 0 → n ≤ fuel →
      natCharsAux fuel n = ((Nat.digits 10 n).map Nat.digitChar).reverse := by
  intro fuel
  induction fuel with
  | zero => intro n hn hf; omega
  | succ fuel ih =>
    intro n hn hf
    have hdig : Nat.digits 10 n = n % 10 :: Nat.digits 10 (n / 10) :=
      Nat.digits_def' (by norm_num) (by omega)
    by_cases hlt : n < 10
    · have h10 : n % 10 = n := Nat.mod_eq_of_lt hlt
      have hdiv : n / 10 = 0 := Nat.div_eq_of_lt hlt
      unfold natCharsAux
      rw [if_pos hlt, hdig, h10, hdiv, Nat.digits_zero]
      rfl
    · have hdiv0 : n / 10 ≠ 0 := by
        intro h
        have := Nat.div_eq_of_lt (by omega : n < 10)
        omega
      have hdivlt : n / 10 < n := Nat.div_lt_self (by omega) (by norm_num)
      unfold natCharsAux
      rw [if_neg hlt, hdig]
      rw [ih hdiv0 (by omega)]
      simp

theorem natChars_eq_digits {n : Nat} (hn : n ≠ 0) :
    natChars n = ((Nat.digits 10 n).map Nat.digitChar).reverse :=
  natCharsAux_eq_digits (n + 1) hn (by omega)

theorem natChars_zero : natChars 0 = ['0'] := rfl

theorem natChars_ne_nil (n : Nat) : natChars n ≠ [] := by
  by_cases h : n = 0
  · subst h; decide
  · rw [natChars_eq_digits h]
    simp only [ne_eq, List.reverse_eq_nil_iff, List.map_eq_nil_iff]
    exact Nat.digits_ne_nil_iff_ne_zero.mpr h

theorem natChars_isDigit {n : Nat} {c : Char} (h : c ∈ natChars n) : c.isDigit := by
  by_cases hn : n = 0
  · subst hn
    rw [natChars_zero] at h
    simp at h
    subst h; decide
  · rw [natChars_eq_digits hn] at h
    simp only [List.mem_reverse, List.mem_map] at h
    obtain ⟨d, hd, rfl⟩ := h
    exact digitChar_isDigit (Nat.digits_lt_base (by norm_num) hd)

theorem map_digitChar_inj :
    ∀ {l1 l2 : List Nat}, (∀ x ∈ l1, x < 10) → (∀ x ∈ l2, x < 10) →
      l1.map Nat.digitChar = l2.map Nat.digitChar → l1 = l2 := by
  intro l1
  induction l1 with
  | nil =>
    intro l2 _ _ h
    match l2 with
    | [] => rfl
    | y :: ys => simp at h
  | cons x xs ih =>
    intro l2 h1 h2 h
    match l2 with
    | [] => simp at h
    | y :: ys =>
      simp only [List.map_cons, List.cons.injEq] at h
      have hx := h1 x (List.mem_cons_self x xs)
      have hy := h2 y (List.mem_cons_self y ys)
      rw [digitChar_inj hx hy h.1,
        ih (fun z hz => h1 z (List.mem_cons_of_mem x hz))
           (fun z hz => h2 z (List.mem_cons_of_mem y hz)) h.2]

theorem natChars_eq_singleton_zero {n : Nat} (h : natChars n = ['0']) : n = 0 := by
  by_cases hn : n = 0
  · exact hn
  · exfalso
    rw [natChars_eq_digits hn] at h
    have h' := congrArg List.reverse h
    simp only [List.reverse_reverse] at h'
    have h0 : List.reverse ['0'] = ['0'] := rfl
    rw [h0] at h'
    match hd : Nat.digits 10 n with
    | [] => exact (Nat.digits_ne_nil_iff_ne_zero.mpr hn) hd
    | [d] =>
      rw [hd] at h'
      simp only [List.map_cons, List.map_nil, List.cons.injEq] at h'
      have hdlt : d < 10 := Nat.digits_lt_base (by norm_num) (hd ▸ List.mem_singleton_self d)
      have hd0 : d = 0 := digitChar_inj hdlt (by norm_num) (by simpa using h'.1)
      have hn0 : n = Nat.ofDigits 10 (Nat.digits 10 n) := (Nat.ofDigits_digits 10 n).symm
      rw [hd, hd0] at hn0
      simp [Nat.ofDigits] at hn0
      exact hn hn0
    | d :: e :: rest =>
      rw [hd] at h'
      simp at h'

theorem natChars_inj {a b : Nat} (h : natChars a = natChars b) : a = b := by
  by_cases ha : a = 0 <;> by_cases hb : b = 0
  · omega
  · have hb' : natChars b = ['0'] := by
      rw [← h, ha, natChars_zero]
    exact absurd (natChars_eq_singleton_zero hb') hb
  · have ha' : natChars a = ['0'] := by
      rw [h, hb, natChars_zero]
    exact absurd (natChars_eq_singleton_zero ha') ha
  · rw [natChars_eq_digits ha, natChars_eq_digits hb] at h
    have h' := congrArg List.reverse h
    simp only [List.reverse_reverse] at h'
    have hmap : Nat.digits 10 a = Nat.digits 10 b :=
      map_digitChar_inj (fun x hx => Nat.digits_lt_base (by norm_num) hx)
        (fun x hx => Nat.digits_lt_base (by norm_num) hx) h'
    have := congrArg (Nat.ofDigits 10) hmap
    rwa [Nat.ofDigits_digits, Nat.ofDigits_digits] at this

theorem natChars_ne {a b : Nat} (h : a ≠ b) : natChars a ≠ natChars b :=
  fun e => h (natChars_inj e)

theorem find?_range'_min {p : Nat → Bool} :
    ∀ {n s a : Nat}, (List.range' s n).find? p = some a →
      ∀ x, s ≤ x → x < a → p x = false := by
  intro n
  induction n with
  | zero => intro s a h; simp [List.find?] at h
  | succ n ih =>
    intro s a h x hsx hxa
    rw [List.range'_succ] at h
    rw [List.find?_cons] at h
    cases hp : p s with
    | true =>
      rw [hp] at h
      simp only [Option.some.injEq] at h
      omega
    | false =>
      rw [hp] at h
      by_cases hxs : x = s
      · exact hxs ▸ hp
      · exact ih h x (by omega) hxa

theorem find?_range'_mem {p : Nat → Bool} {n s a : Nat}
    (h : (List.range' s n).find? p = some a) : s ≤ a ∧ a < s + n ∧ p a = true :=
  ⟨(List.mem_range'_1.mp (List.mem_of_find?_eq_some h)).1,
   (List.mem_range'_1.mp (List.mem_of_find?_eq_some h)).2,
   List.find?_some h⟩

/-- Full characterisation of `get_unique_ending`: either no suffix of
length 2 to 19 occurs exactly once and the whole line is returned, or the
result is the shortest such suffix. -/
theorem get_unique_ending_spec (line : Str) :
    (get_unique_ending line = line ∧
      ∀ L, 2 ≤ L → L < min (line.length + 1) 20 →
        pyCount line (line.drop (line.length - L)) ≠ 1) ∨
    (∃ L, 2 ≤ L ∧ L < min (line.length + 1) 20 ∧
      get_unique_ending line = line.drop (line.length - L) ∧
      pyCount line (line.drop (line.length - L)) = 1 ∧
      ∀ L', 2 ≤ L' → L' < L → pyCount line (line.drop (line.length - L')) ≠ 1) := by
  unfold get_unique_ending
  cases hf : (List.range' 2 (min (line.length + 1) 20 - 2)).find?
      (fun L => pyCount line (line.drop (line.length - L)) == 1) with
  | none =>
    left
    refine ⟨rfl, fun L h2 hlt hc => ?_⟩
    have hmem : L ∈ List.range' 2 (min (line.length + 1) 20 - 2) :=
      List.mem_range'_1.mpr ⟨h2, by omega⟩
    have := List.find?_eq_none.mp hf L hmem
    simp only [beq_iff_eq] at this
    exact this hc
  | some L =>
    right
    obtain ⟨h2, hlt, hp⟩ := find?_range'_mem hf
    simp only [beq_iff_eq] at hp
    refine ⟨L, h2, by omega, rfl, hp, fun L' h2' hL' hc => ?_⟩
    have := find?_range'_min hf L' h2' hL'
    simp only [beq_eq_false_iff_ne, ne_eq] at this
    exact this hc

theorem get_unique_ending_suffix (line : Str) : get_unique_ending line <:+ line := by
  unfold get_unique_ending
  cases (List.range' 2 (min (line.length + 1) 20 - 2)).find?
      (fun L => pyCount line (line.drop (line.length - L)) == 1) with
  | none => exact List.suffix_rfl
  | some L => exact List.drop_suffix _ _

theorem get_unique_ending_ne_nil {line : Str} (h : line ≠ []) :
    get_unique_ending line ≠ [] := by
  rcases get_unique_ending_spec line with ⟨he, _⟩ | ⟨L, h2, hlt, he, _, _⟩
  · rw [he]; exact h
  · rw [he]
    have : line.length - L < line.length := by omega
    simp only [ne_eq, List.drop_eq_nil_iff]
    omega

theorem getLast?_get_unique_ending (line : Str) :
    line.getLast? = (get_unique_ending line).getLast? := by
  by_cases h : line = []
  · subst h
    rfl
  · exact getLast?_of_suffix (get_unique_ending_suffix line) (get_unique_ending_ne_nil h)

theorem dedupIssuesAux_sublist (seen : List (Str × Str × Str)) :
    ∀ l : List CheckIssue, List.Sublist (dedupIssuesAux seen l) l := by
  intro l
  induction l generalizing seen with
  | nil => exact List.Sublist.refl []
  | cons i rest ih =>
    unfold dedupIssuesAux
    by_cases h : issueKey i ∈ seen
    · simp only [h, if_pos trivial]
      exact (ih seen).cons i
    · simp only [h, if_false]
      exact (ih (issueKey i :: seen)).cons₂ i

theorem mem_dedupIssuesAux_key {j : CheckIssue} :
    ∀ (seen : List (Str × Str × Str)) {l : List CheckIssue},
      j ∈ dedupIssuesAux seen l → issueKey j ∉ seen := by
  intro seen l
  induction l generalizing seen with
  | nil => intro h; cases h
  | cons i rest ih =>
    intro h
    unfold dedupIssuesAux at h
    by_cases hk : issueKey i ∈ seen
    · simp only [hk, if_pos trivial] at h
      exact ih seen h
    · simp only [hk, if_false] at h
      rcases List.mem_cons.mp h with rfl | h'
      · exact hk
      · intro hj
        exact ih (issueKey i :: seen) h' (List.mem_cons_of_mem _ hj)

theorem dedupIssuesAux_pairwise (seen : List (Str × Str × Str)) :
    ∀ l : List CheckIssue,
      (dedupIssuesAux seen l).Pairwise (fun a b => issueKey a ≠ issueKey b) := by
  intro l
  induction l generalizing seen with
  | nil => exact List.Pairwise.nil
  | cons i rest ih =>
    unfold dedupIssuesAux
    by_cases h : issueKey i ∈ seen
    · simp only [h, if_pos trivial]
      exact ih seen
    · simp only [h, if_false]
      refine List.Pairwise.cons ?_ (ih (issueKey i :: seen))
      intro j hj he
      exact mem_dedupIssuesAux_key _ hj (he ▸ List.mem_cons_self _ _)

theorem dedupIssues_pairwise (l : List CheckIssue) :
    (dedupIssues l).Pairwise (fun a b => issueKey a ≠ issueKey b) :=
  dedupIssuesAux_pairwise [] l

theorem dedupIssues_sublist (l : List CheckIssue) : List.Sublist (dedupIssues l) l :=
  dedupIssuesAux_sublist [] l

theorem dedupIssuesAux_key_covered {a : CheckIssue} :
    ∀ (seen : List (Str × Str × Str)) {l : List CheckIssue}, a ∈ l →
      issueKey a ∈ seen ∨ ∃ b ∈ dedupIssuesAux seen l, issueKey b = issueKey a := by
  intro seen l
  induction l generalizing seen with
  | nil => intro h; cases h
  | cons i rest ih =>
    intro h
    unfold dedupIssuesAux
    by_cases hk : issueKey i ∈ seen
    · simp only [hk, if_pos trivial]
      rcases List.mem_cons.mp h with rfl | h'
      · exact Or.inl hk
      · exact ih seen h'
    · simp only [hk, if_false]
      rcases List.mem_cons.mp h with rfl | h'
      · exact Or.inr ⟨a, List.mem_cons_self .., rfl⟩
      · rcases ih (issueKey i :: seen) h' with hin | ⟨b, hb, he⟩
        · rcases List.mem_cons.mp hin with he | hin'
          · exact Or.inr ⟨i, List.mem_cons_self .., he.symm⟩
          · exact Or.inl hin'
        · exact Or.inr ⟨b, List.mem_cons_of_mem _ hb, he⟩

theorem dedupIssues_key_covered {a : CheckIssue} {l : List CheckIssue}
    (h : a ∈ l) : ∃ b ∈ dedupIssues l, issueKey b = issueKey a := by
  rcases dedupIssuesAux_key_covered [] h with hin | h'
  · cases hin
  · exact h'

theorem isPrefixOf_nil_false {sub : Str} (hsub : sub ≠ []) :
    sub.isPrefixOf ([] : Str) = false := by
  cases hs : sub.isPrefixOf ([] : Str)
  · rfl
  · exact absurd (List.prefix_nil.mp (List.isPrefixOf_iff_prefix.mp hs)) hsub

theorem isEmpty_false_of_ne_nil {sub : Str} (hsub : sub ≠ []) :
    sub.isEmpty = false := by
  cases sub with
  | nil => exact absurd rfl hsub
  | cons a t => rfl

theorem length_pos_of_ne_nil {sub : Str} (hsub : sub ≠ []) : 1 ≤ sub.length := by
  cases sub with
  | nil => exact absurd rfl hsub
  | cons a t => simp

theorem pyCount_unfold {s sub : Str} (hsub : sub ≠ []) :
    pyCount s sub = pyCountAux sub s.length s := by
  unfold pyCount
  rw [isEmpty_false_of_ne_nil hsub]
  simp

theorem findSub_sound {sub : Str} (hsub : sub ≠ []) :
    ∀ {s : Str} {i : Nat}, findSub sub s = some i →
      sub.isPrefixOf (s.drop i) = true ∧ i + sub.length ≤ s.length := by
  intro s
  induction s with
  | nil =>
    intro i h
    unfold findSub at h
    rw [isPrefixOf_nil_false hsub] at h
    simp at h
  | cons a t ih =>
    intro i h
    unfold findSub at h
    by_cases hp : sub.isPrefixOf (a :: t) = true
    · rw [if_pos hp] at h
      cases h
      refine ⟨hp, ?_⟩
      have := (List.isPrefixOf_iff_prefix.mp hp).length_le
      simp only [List.length_cons] at *
      omega
    · rw [if_neg hp] at h
      cases hf : findSub sub t with
      | none => rw [hf] at h; cases h
      | some j =>
        rw [hf] at h
        simp only [Option.map_some', Option.some.injEq] at h
        subst h
        obtain ⟨h1, h2⟩ := ih hf
        refine ⟨by simpa using h1, ?_⟩
        simp only [List.length_cons]
        omega

theorem findSub_min {sub : Str} :
    ∀ {s : Str} {i : Nat}, findSub sub s = some i →
      ∀ j, j < i → sub.isPrefixOf (s.drop j) = false := by
  intro s
  induction s with
  | nil =>
    intro i h j hj
    unfold findSub at h
    by_cases hp : sub.isPrefixOf ([] : Str) = true
    · rw [if_pos hp] at h
      simp only [Option.some.injEq] at h
      omega
    · rw [if_neg hp] at h; cases h
  | cons a t ih =>
    intro i h j hj
    unfold findSub at h
    by_cases hp : sub.isPrefixOf (a :: t) = true
    · rw [if_pos hp] at h
      simp only [Option.some.injEq] at h
      omega
    · rw [if_neg hp] at h
      cases hf : findSub sub t with
      | none => rw [hf] at h; cases h
      | some k =>
        rw [hf] at h
        simp only [Option.map_some', Option.some.injEq] at h
        subst h
        match j with
        | 0 => simpa using Bool.eq_false_iff.mpr hp
        | j + 1 => simpa using ih hf j (by omega)

theorem findSub_decomp {sub : Str} (hsub : sub ≠ []) {s : Str} {i : Nat}
    (h : findSub sub s = some i) :
    s = s.take i ++ sub ++ s.drop (i + sub.length) := by
  obtain ⟨h1, _⟩ := findSub_sound hsub h
  obtain ⟨t, ht⟩ := List.isPrefixOf_iff_prefix.mp h1
  have hdrop : s.drop (i + sub.length) = t := by
    have h2 := congrArg (List.drop sub.length) ht
    rw [List.drop_drop, List.drop_left] at h2
    exact h2.symm
  calc s = s.take i ++ s.drop i := (List.take_append_drop i s).symm
  _ = s.take i ++ (sub ++ t) := by rw [ht]
  _ = s.take i ++ sub ++ s.drop (i + sub.length) := by rw [hdrop, List.append_assoc]

theorem findSub_none_count {sub : Str} (hsub : sub ≠ []) :
    ∀ {s : Str}, findSub sub s = none → pyCount s sub = 0 := by
  have key : ∀ (fuel : Nat) (s : Str), findSub sub s = none →
      pyCountAux sub fuel s = 0 := by
    intro fuel
    induction fuel with
    | zero => intro s _; rfl
    | succ fuel ih =>
      intro s h
      match s with
      | [] => rfl
      | a :: t =>
        unfold findSub at h
        by_cases hp : sub.isPrefixOf (a :: t) = true
        · rw [if_pos hp] at h; cases h
        · rw [if_neg hp] at h
          unfold pyCountAux
          rw [if_neg hp]
          cases hf : findSub sub t with
          | none => exact ih t hf
          | some j => rw [hf] at h; cases h
  intro s h
  rw [pyCount_unfold hsub]
  exact key s.length s h

theorem pyCountAux_stable {sub : Str} (hsub : sub ≠ []) :
    ∀ (fuel₁ : Nat) {fuel₂ : Nat} {s : Str}, s.length ≤ fuel₁ → s.length ≤ fuel₂ →
      pyCountAux sub fuel₁ s = pyCountAux sub fuel₂ s := by
  have hlen := length_pos_of_ne_nil hsub
  intro fuel₁
  induction fuel₁ with
  | zero =>
    intro fuel₂ s h₁ _
    have : s = [] := List.length_eq_zero.mp (by omega)
    subst this
    cases fuel₂ <;> rfl
  | succ fuel₁ ih =>
    intro fuel₂ s h₁ h₂
    match s with
    | [] => cases fuel₂ <;> rfl
    | a :: t =>
      match fuel₂, h₂ with
      | fuel₂ + 1, h₂ =>
        unfold pyCountAux
        by_cases hp : sub.isPrefixOf (a :: t) = true
        · rw [if_pos hp, if_pos hp]
          have hd : ((a :: t).drop sub.length).length ≤ fuel₁ := by
            simp only [List.length_drop, List.length_cons] at *
            omega
          have hd₂ : ((a :: t).drop sub.length).length ≤ fuel₂ := by
            simp only [List.length_drop, List.length_cons] at *
            omega
          rw [ih hd hd₂]
        · rw [if_neg hp, if_neg hp]
          have ht : t.length ≤ fuel₁ := by
            simp only [List.length_cons] at h₁
            omega
          have ht₂ : t.length ≤ fuel₂ := by
            simp only [List.length_cons] at h₂
            omega
          exact ih ht ht₂

theorem pyCountAux_succ_cons (sub : Str) (fuel : Nat) (a : Char) (t : Str) :
    pyCountAux sub (fuel + 1) (a :: t) =
      if sub.isPrefixOf (a :: t) then
        1 + pyCountAux sub fuel ((a :: t).drop sub.length)
      else pyCountAux sub fuel t := rfl

theorem pyCount_cons_of_no_match {sub : Str} (hsub : sub ≠ []) {a : Char}
    {t : Str} (hp : sub.isPrefixOf (a :: t) = false) :
    pyCount (a :: t) sub = pyCount t sub := by
  rw [pyCount_unfold hsub, pyCount_unfold hsub]
  have hl : (a :: t).length = t.length + 1 := rfl
  rw [hl, pyCountAux_succ_cons]
  simp [hp]

theorem pyCount_cons_of_prefix {sub : Str} (hsub : sub ≠ []) {a : Char}
    {t : Str} (hp : sub.isPrefixOf (a :: t) = true) :
    pyCount (a :: t) sub = 1 + pyCount ((a :: t).drop sub.length) sub := by
  have hlen := length_pos_of_ne_nil hsub
  rw [pyCount_unfold hsub, pyCount_unfold hsub]
  have hl : (a :: t).length = t.length + 1 := rfl
  rw [hl, pyCountAux_succ_cons]
  rw [if_pos hp]
  congr 1
  refine pyCountAux_stable hsub _ ?_ (Nat.le_refl _)
  simp only [List.length_drop, List.length_cons]
  omega

theorem pyCount_eq {sub : Str} (hsub : sub ≠ []) :
    ∀ s : Str, pyCount s sub =
      match findSub sub s with
      | none => 0
      | some i => 1 + pyCount (s.drop (i + sub.length)) sub := by
  intro s
  induction s with
  | nil =>
    unfold findSub
    rw [isPrefixOf_nil_false hsub]
    simp only [Bool.false_eq_true, if_false]
    exact findSub_none_count hsub (by unfold findSub; rw [isPrefixOf_nil_false hsub]; simp)
  | cons a t ih =>
    unfold findSub
    by_cases hp : sub.isPrefixOf (a :: t) = true
    · rw [if_pos hp]
      simpa using pyCount_cons_of_prefix hsub hp
    · rw [if_neg hp]
      rw [pyCount_cons_of_no_match hsub (Bool.eq_false_iff.mpr hp), ih]
      cases hf : findSub sub t with
      | none => rfl
      | some j =>
        simp only [Option.map_some']
        have harith : j + 1 + sub.length = (j + sub.length) + 1 := by omega
        rw [harith, List.drop_succ_cons]

theorem pySplitAux_succ (sep : Str) (fuel : Nat) (s : Str) :
    pySplitAux sep (fuel + 1) s =
      match findSub sep s with
      | none => [s]
      | some i => s.take i :: pySplitAux sep fuel (s.drop (i + sep.length)) := rfl

theorem pySplitAux_stable {sep : Str} (hsep : sep ≠ []) :
    ∀ (fuel₁ : Nat) {fuel₂ : Nat} {s : Str}, s.length < fuel₁ → s.length < fuel₂ →
      pySplitAux sep fuel₁ s = pySplitAux sep fuel₂ s := by
  have hlen := length_pos_of_ne_nil hsep
  intro fuel₁
  induction fuel₁ with
  | zero => intro fuel₂ s h₁ _; omega
  | succ fuel₁ ih =>
    intro fuel₂ s h₁ h₂
    match fuel₂, h₂ with
    | fuel₂ + 1, h₂ =>
      rw [pySplitAux_succ, pySplitAux_succ]
      cases hf : findSub sep s with
      | none => rfl
      | some i =>
        obtain ⟨_, hle⟩ := findSub_sound hsep hf
        have hd : (s.drop (i + sep.length)).length < fuel₁ := by
          simp only [List.length_drop]
          omega
        have hd₂ : (s.drop (i + sep.length)).length < fuel₂ := by
          simp only [List.length_drop]
          omega
        exact congrArg (s.take i :: ·) (ih hd hd₂)

theorem pySplit_eq {sep : Str} (hsep : sep ≠ []) (s : Str) :
    pySplit sep s =
      match findSub sep s with
      | none => [s]
      | some i => s.take i :: pySplit sep (s.drop (i + sep.length)) := by
  have hlen := length_pos_of_ne_nil hsep
  unfold pySplit
  rw [pySplitAux_succ]
  cases hf : findSub sep s with
  | none => rfl
  | some i =>
    obtain ⟨_, hle⟩ := findSub_sound hsep hf
    have hd : (s.drop (i + sep.length)).length < s.length := by
      simp only [List.length_drop]
      omega
    exact congrArg (s.take i :: ·)
      (pySplitAux_stable hsep _ hd (Nat.lt_succ_self _))

theorem pySplit_length {sep : Str} (hsep : sep ≠ []) (s : Str) :
    (pySplit sep s).length = pyCount s sep + 1 := by
  have hlen := length_pos_of_ne_nil hsep
  have key : ∀ (n : Nat) (s : Str), s.length ≤ n →
      (pySplit sep s).length = pyCount s sep + 1 := by
    intro n
    induction n with
    | zero =>
      intro s h
      have : s = [] := List.length_eq_zero.mp (by omega)
      subst this
      rw [pySplit_eq hsep, pyCount_eq hsep]
      have hf : findSub sep ([] : Str) = none := by
        unfold findSub
        rw [isPrefixOf_nil_false hsep]
        simp
      rw [hf]
      rfl
    | succ n ih =>
      intro s h
      rw [pySplit_eq hsep, pyCount_eq hsep]
      cases hf : findSub sep s with
      | none => rfl
      | some i =>
        obtain ⟨_, hle⟩ := findSub_sound hsep hf
        have hd : (s.drop (i + sep.length)).length ≤ n := by
          simp only [List.length_drop]
          omega
        show (s.take i :: pySplit sep (s.drop (i + sep.length))).length =
          (1 + pyCount (s.drop (i + sep.length)) sep) + 1
        rw [List.length_cons, ih _ hd]
        omega
  exact key s.length s (Nat.le_refl _)

theorem pySplit_count_one {sep : Str} (hsep : sep ≠ []) {s : Str}
    (h : pyCount s sep = 1) :
    ∃ i, findSub sep s = some i ∧
      pySplit sep s = [s.take i, s.drop (i + sep.length)] ∧
      s = s.take i ++ sep ++ s.drop (i + sep.length) := by
  rw [pyCount_eq hsep] at h
  cases hf : findSub sep s with
  | none => rw [hf] at h; cases h
  | some i =>
    rw [hf] at h
    have h' : 1 + pyCount (s.drop (i + sep.length)) sep = 1 := h
    have hc : pyCount (s.drop (i + sep.length)) sep = 0 := by omega
    refine ⟨i, rfl, ?_, findSub_decomp hsep hf⟩
    rw [pySplit_eq hsep, hf]
    show s.take i :: pySplit sep (s.drop (i + sep.length)) = _
    rw [pySplit_eq hsep]
    cases hg : findSub sep (s.drop (i + sep.length)) with
    | none => rfl
    | some j =>
      rw [pyCount_eq hsep, hg] at hc
      have hc' : 1 + pyCount ((s.drop (i + sep.length)).drop (j + sep.length)) sep = 0 := hc
      omega

/-! ## Claims -/

/-- Claim C10: for every line and location, `_check_number_format` emits at
most one numbering-format issue; as soon as one of the non-canonical
marker patterns (duplicated `N.M` numbering, CJK enumeration dot, CJK
full-stop marker, CJK or ASCII parenthesized number) matches, the check
returns at once, so a line matching any of them yields exactly one
numbering-format issue. -/
theorem claim10_number_format_single_issue (line loc : Str) :
    (numberFormatCheck line loc).length ≤ 1 ∧
    ((parseDup line).isSome ∨ (parseMarker '、' line).isSome ∨
      (parseMarker '。' line).isSome ∨ (parseParen '（' '）' line).isSome ∨
      (parseParen '(' ')' line).isSome →
      (numberFormatCheck line loc).length = 1) := by
  unfold numberFormatCheck
  cases h1 : parseDup line with
  | some v =>
    obtain ⟨g1, g2, hd, g3⟩ := v
    exact ⟨by simp, fun _ => by simp⟩
  | none =>
  cases h2 : parseMarker '、' line with
  | some g1 => exact ⟨by simp, fun _ => by simp⟩
  | none =>
  cases h3 : parseMarker '。' line with
  | some g1 => exact ⟨by simp, fun _ => by simp⟩
  | none =>
  cases h4 : parseParen '（' '）' line with
  | some g1 => exact ⟨by simp, fun _ => by simp⟩
  | none =>
  cases h5 : parseParen '(' ')' line with
  | some g1 => exact ⟨by simp, fun _ => by simp⟩
  | none =>
  cases h6 : parseDotSpace line with
  | some v =>
    obtain ⟨g1, ws⟩ := v
    refine ⟨by simp, fun h => ?_⟩
    rcases h with h | h | h | h | h <;>
      simp only [h1, h2, h3, h4, h5, Option.isSome_none] at h <;> cases h
  | none =>
    refine ⟨by simp, fun h => ?_⟩
    rcases h with h | h | h | h | h <;>
      simp only [h1, h2, h3, h4, h5, Option.isSome_none] at h <;> cases h

/-- Witness for C10 at a concrete line carrying a CJK enumeration dot. -/
theorem claim10_witness :
    (numberFormatCheck "1、完成项目".data "本周工作第1条".data).length = 1 :=
  (claim10_number_format_single_issue "1、完成项目".data "本周工作第1条".data).2
    (Or.inr (Or.inl (by decide)))

/-- Claim C8 as stated is false: the splitter cuts whenever `本周工作`
occurs at least once (not exactly once) and `下周计划` occurs exactly
once.  On a text containing `本周工作` twice it still returns two
sections, where the claim requires the whole text as a single section. -/
theorem claim8_counterexample :
    (split_content_sections "本周工作本周工作下周计划".data).length = 2 ∧
    pyCount "本周工作本周工作下周计划".data "本周工作".data = 2 ∧
    split_content_sections "本周工作本周工作下周计划".data ≠
      ["本周工作本周工作下周计划".data] := by
  refine ⟨by decide, by decide, by decide⟩

/-- Claim C8 (amended): the splitter returns exactly two sections iff
`本周工作` occurs at least once and `下周计划` occurs exactly once, in
which case the text is cut at that single `下周计划` occurrence with each
half trimmed and the second half retaining its heading; in every other
case it returns the whole text as a single section, and it never returns
an empty list. -/
theorem claim8_splitter_amended (content : Str) :
    split_content_sections content ≠ [] ∧
    ((split_content_sections content).length = 2 ↔
      (containsSub "本周工作".data content = true ∧
        pyCount content "下周计划".data = 1)) ∧
    ((containsSub "本周工作".data content = true ∧
        pyCount content "下周计划".data = 1) →
      ∃ pre post, content = pre ++ "下周计划".data ++ post ∧
        split_content_sections content =
          [pyStrip pre, "下周计划".data ++ pyStrip post]) ∧
    (¬(containsSub "本周工作".data content = true ∧
        pyCount content "下周计划".data = 1) →
      split_content_sections content = [content]) := by
  have hsep : ("下周计划".data : Str) ≠ [] := by decide
  by_cases hc1 : containsSub "本周工作".data content = true
  · by_cases hc2 : containsSub "下周计划".data content = true
    · have hcond : (containsSub "本周工作".data content &&
          containsSub "下周计划".data content) = true := by
        rw [hc1, hc2]; rfl
      by_cases hcount : pyCount content "下周计划".data = 1
      · obtain ⟨i, hfi, hps, hdecomp⟩ := pySplit_count_one hsep hcount
        have hsections : split_content_sections content =
            [pyStrip (content.take i),
             "下周计划".data ++
               pyStrip (content.drop (i + ("下周计划".data : Str).length))] := by
          unfold split_content_sections
          rw [hcond, hps]
          rfl
        refine ⟨by rw [hsections]; simp, ?_, ?_, ?_⟩
        · constructor
          · intro _; exact ⟨hc1, hcount⟩
          · intro _; rw [hsections]; rfl
        · intro _
          exact ⟨content.take i, content.drop (i + ("下周计划".data : Str).length),
            hdecomp, hsections⟩
        · intro h
          exact absurd ⟨hc1, hcount⟩ h
      · have hlen2 : (pySplit "下周计划".data content).length ≠ 2 := by
          rw [pySplit_length hsep]
          omega
        have hsections : split_content_sections content = [content] := by
          unfold split_content_sections
          rw [hcond]
          cases hps : pySplit "下周计划".data content with
          | nil => rfl
          | cons p0 rest =>
            cases rest with
            | nil => rfl
            | cons p1 rest2 =>
              cases rest2 with
              | nil => rw [hps] at hlen2; simp at hlen2
              | cons p2 rest3 => rfl
        refine ⟨by rw [hsections]; simp, ?_, ?_, ?_⟩
        · rw [hsections]
          constructor
          · intro h; simp at h
          · rintro ⟨_, h⟩; exact absurd h hcount
        · rintro ⟨_, h⟩; exact absurd h hcount
        · intro _; exact hsections
    · have hc2' : containsSub "下周计划".data content = false := by
        cases h : containsSub "下周计划".data content
        · rfl
        · exact absurd h hc2
      have hcount0 : pyCount content "下周计划".data ≠ 1 := by
        intro h
        exact hc2 (containsSub_iff.mpr (infix_of_pyCount_pos hsep (by omega)))
      have hsections : split_content_sections content = [content] := by
        unfold split_content_sections
        rw [hc2']
        simp
      refine ⟨by rw [hsections]; simp, ?_, ?_, ?_⟩
      · rw [hsections]
        constructor
        · intro h; simp at h
        · rintro ⟨_, h⟩; exact absurd h hcount0
      · rintro ⟨_, h⟩; exact absurd h hcount0
      · intro _; exact hsections
  · have hc1' : containsSub "本周工作".data content = false := by
      cases h : containsSub "本周工作".data content
      · rfl
      · exact absurd h hc1
    have hsections : split_content_sections content = [content] := by
      unfold split_content_sections
      rw [hc1']
      simp
    refine ⟨by rw [hsections]; simp, ?_, ?_, ?_⟩
    · rw [hsections]
      constructor
      · intro h; simp at h
      · rintro ⟨h, _⟩; exact absurd h hc1
    · rintro ⟨h, _⟩; exact absurd h hc1
    · intro _; exact hsections

/-- Witness for the amended C8 at a two-heading text. -/
theorem claim8_witness :
    (containsSub "本周工作".data "本周工作：A\n下周计划：B".data = true ∧
      pyCount "本周工作：A\n下周计划：B".data "下周计划".data = 1) ∧
    ∃ pre post, "本周工作：A\n下周计划：B".data = pre ++ "下周计划".data ++ post ∧
      split_content_sections "本周工作：A\n下周计划：B".data =
        [pyStrip pre, "下周计划".data ++ pyStrip post] :=
  ⟨⟨by decide, by decide⟩,
    (claim8_splitter_amended "本周工作：A\n下周计划：B".data).2.2.1
      ⟨by decide, by decide⟩⟩

/-- Claim C3 as stated is false in one point: the aggregate message joins
every raised failure message in task order *without* removing duplicates.
With one section (two agent tasks) both failing with cause `e`, the raised
message is `e; e`, not the distinct-cause join `e`. -/
theorem claim3_counterexample :
    combined_check "x".data {} (fun _ => TaskOutcome.valueError "e".data) =
      Except.error "e; e".data ∧
    joinSemicolon (List.dedup ["e".data, "e".data]) = "e".data ∧
    ("e; e".data : Str) ≠ "e".data := by
  refine ⟨by decide, by decide, by decide⟩

/-- Claim C3 (amended): if any concurrently launched agent task raises
`AgentError` (`ValueError`), batch mode raises an aggregate error whose
message joins every failure cause in task-launch order, duplicates
included; no result is assembled and successful siblings' output is
discarded; if no task raises `AgentError`, no aggregate error is raised
(non-`ValueError` exceptions are silently skipped). -/
theorem claim3_batch_error_aggregation_amended (content : Str)
    (config : RuleConfig) (outcomes : Nat → TaskOutcome) :
    (((List.range (2 * (split_content_sections content).length)).map
        outcomes).filterMap TaskOutcome.errMsg? ≠ [] →
      combined_check content config outcomes =
        Except.error (joinSemicolon
          (((List.range (2 * (split_content_sections content).length)).map
            outcomes).filterMap TaskOutcome.errMsg?))) ∧
    (((List.range (2 * (split_content_sections content).length)).map
        outcomes).filterMap TaskOutcome.errMsg? = [] →
      combined_check content config outcomes =
        Except.ok (dedupIssues (ruleCheck content config ++
          ((List.range (2 * (split_content_sections content).length)).map
            outcomes).flatMap TaskOutcome.issuesOr))) ∧
    (∀ issues, combined_check content config outcomes = Except.ok issues →
      ((List.range (2 * (split_content_sections content).length)).map
        outcomes).filterMap TaskOutcome.errMsg? = []) := by
  have hcc : combined_check content config outcomes =
      if (((List.range (2 * (split_content_sections content).length)).map
          outcomes).filterMap TaskOutcome.errMsg?).isEmpty then
        Except.ok (dedupIssues (ruleCheck content config ++
          ((List.range (2 * (split_content_sections content).length)).map
            outcomes).flatMap TaskOutcome.issuesOr))
      else
        Except.error (joinSemicolon
          (((List.range (2 * (split_content_sections content).length)).map
            outcomes).filterMap TaskOutcome.errMsg?)) := rfl
  rw [hcc]
  cases he : (((List.range (2 * (split_content_sections content).length)).map
      outcomes).filterMap TaskOutcome.errMsg?).isEmpty with
  | true =>
    have he' := List.isEmpty_iff.mp he
    exact ⟨fun h => absurd he' h, fun _ => by simp, fun issues _ => he'⟩
  | false =>
    have he' : ((List.range (2 * (split_content_sections content).length)).map
        outcomes).filterMap TaskOutcome.errMsg? ≠ [] := by
      intro h
      rw [List.isEmpty_iff.mpr h] at he
      cases he
    exact ⟨fun _ => by simp, fun h => absurd h he', fun issues h => by simp at h⟩

/-- Witness for the amended C3: one failing task aborts the batch with its
message; an all-successful batch returns a result. -/
theorem claim3_witness :
    combined_check "x".data {}
        (fun n => if n = 0 then TaskOutcome.valueError "a".data
          else TaskOutcome.ok []) =
      Except.error "a".data ∧
    combined_check "x".data {} (fun _ => TaskOutcome.ok []) = Except.ok [] := by
  constructor
  · have h := (claim3_batch_error_aggregation_amended "x".data {}
      (fun n => if n = 0 then TaskOutcome.valueError "a".data
        else TaskOutcome.ok [])).1 (by decide)
    rw [h]
    decide
  · have h := (claim3_batch_error_aggregation_amended "x".data {}
      (fun _ => TaskOutcome.ok [])).2.1 (by decide)
    rw [h]
    decide

/-- Claim C5: for every successful batch run, the returned list is the
merged list (rule issues first, then agent issues in launch order)
deduplicated by `(location, original, suggestion)` keeping first
occurrences: it is a sublist of the merged list, no two returned issues
share a key, every merged issue's key is represented, and `count` is the
length of the deduplicated list. -/
theorem claim5_batch_merge_dedup (content : Str) (config : RuleConfig)
    (outcomes : Nat → TaskOutcome) (issues : List CheckIssue)
    (h : combined_check content config outcomes = Except.ok issues) :
    issues = dedupIssues (ruleCheck content config ++
      ((List.range (2 * (split_content_sections content).length)).map
        outcomes).flatMap TaskOutcome.issuesOr) ∧
    List.Pairwise (fun a b => issueKey a ≠ issueKey b) issues ∧
    List.Sublist issues (ruleCheck content config ++
      ((List.range (2 * (split_content_sections content).length)).map
        outcomes).flatMap TaskOutcome.issuesOr) ∧
    (∀ a ∈ ruleCheck content config ++
        ((List.range (2 * (split_content_sections content).length)).map
          outcomes).flatMap TaskOutcome.issuesOr,
      ∃ b ∈ issues, issueKey b = issueKey a) ∧
    (CheckResult.mk issues.length issues).total_issues = issues.length := by
  have hcc : combined_check content config outcomes =
      if (((List.range (2 * (split_content_sections content).length)).map
          outcomes).filterMap TaskOutcome.errMsg?).isEmpty then
        Except.ok (dedupIssues (ruleCheck content config ++
          ((List.range (2 * (split_content_sections content).length)).map
            outcomes).flatMap TaskOutcome.issuesOr))
      else
        Except.error (joinSemicolon
          (((List.range (2 * (split_content_sections content).length)).map
            outcomes).filterMap TaskOutcome.errMsg?)) := rfl
  rw [hcc] at h
  cases he : (((List.range (2 * (split_content_sections content).length)).map
      outcomes).filterMap TaskOutcome.errMsg?).isEmpty with
  | false =>
    rw [he, if_neg (by simp)] at h
    cases h
  | true =>
    rw [he, if_pos rfl] at h
    simp only [Except.ok.injEq] at h
    subst h
    refine ⟨rfl, dedupIssues_pairwise _, dedupIssues_sublist _,
      fun a ha => dedupIssues_key_covered ha, rfl⟩

/-- Witness for C5 on a batch whose rule scan finds one issue. -/
theorem claim5_witness :
    combined_check "本周工作：\n1、完成。".data {} (fun _ => TaskOutcome.ok []) =
      Except.ok (dedupIssues (ruleCheck "本周工作：\n1、完成。".data {} ++
        ((List.range
          (2 * (split_content_sections "本周工作：\n1、完成。".data).length)).map
            (fun _ => TaskOutcome.ok [])).flatMap TaskOutcome.issuesOr)) ∧
    List.Pairwise (fun a b => issueKey a ≠ issueKey b)
      (dedupIssues (ruleCheck "本周工作：\n1、完成。".data {} ++
        ((List.range
          (2 * (split_content_sections "本周工作：\n1、完成。".data).length)).map
            (fun _ => TaskOutcome.ok [])).flatMap TaskOutcome.issuesOr)) := by
  have hok : combined_check "本周工作：\n1、完成。".data {}
      (fun _ => TaskOutcome.ok []) =
      Except.ok (dedupIssues (ruleCheck "本周工作：\n1、完成。".data {} ++
        ((List.range
          (2 * (split_content_sections "本周工作：\n1、完成。".data).length)).map
            (fun _ => TaskOutcome.ok [])).flatMap TaskOutcome.issuesOr)) := by
    decide
  exact ⟨hok, (claim5_batch_merge_dedup _ _ _ _ hok).2.1⟩

theorem typoStageEvents_step {name msg : Str} {o : Except Str (List CheckIssue)}
    {e : StreamEvent} (h : e ∈ typoStageEvents name msg o) : e.step = name := by
  unfold typoStageEvents at h
  cases o with
  | ok l =>
    simp only [List.mem_cons, List.not_mem_nil, or_false] at h
    rw [h]
  | error m =>
    simp only [List.mem_cons, List.not_mem_nil, or_false] at h
    rcases h with rfl | rfl <;> rfl

theorem punctStageEvents_step {name msg done : Str}
    {o : Except Str (List CheckIssue)} {e : StreamEvent}
    (h : e ∈ punctStageEvents name msg done o) : e.step = name := by
  unfold punctStageEvents at h
  cases o with
  | ok l =>
    simp only [List.mem_cons, List.not_mem_nil, or_false] at h
    rcases h with rfl | rfl <;> rfl
  | error m =>
    simp only [List.mem_cons, List.not_mem_nil, or_false] at h
    rcases h with rfl | rfl <;> rfl

theorem ruleStageEvents_step {o : Except Str (List CheckIssue)}
    {e : StreamEvent} (h : e ∈ ruleStageEvents o) : e.step = "rule".data := by
  unfold ruleStageEvents at h
  cases o with
  | ok l =>
    simp only [List.mem_cons, List.not_mem_nil, or_false] at h
    rcases h with rfl | rfl <;> rfl
  | error m =>
    simp only [List.mem_cons, List.not_mem_nil, or_false] at h
    rcases h with rfl | rfl <;> rfl

theorem streamPrefixEvents_step {content : Str}
    {ruleO t1 p1 t2 p2 : Except Str (List CheckIssue)} {e : StreamEvent}
    (h : e ∈ streamPrefixEvents content ruleO t1 p1 t2 p2) :
    (e.step == ("done".data : Str)) = false := by
  have hne : e.step ≠ "done".data := by
    unfold streamPrefixEvents at h
    simp only [List.append_assoc, List.mem_append] at h
    rcases h with hr | ht | hp | hrest
    · rw [ruleStageEvents_step hr]; decide
    · rw [typoStageEvents_step ht]; decide
    · rw [punctStageEvents_step hp]; decide
    · by_cases h2 : (split_content_sections content).length = 2
      · rw [if_pos h2] at hrest
        rcases List.mem_append.mp hrest with ht | hp
        · rw [typoStageEvents_step ht]; decide
        · rw [punctStageEvents_step hp]; decide
      · rw [if_neg h2] at hrest
        cases hrest
  simp only [beq_eq_false_iff_ne, ne_eq]
  exact hne

/-- Claim C2: for every input and every combination of stage outcomes
(including failures of any stage), the completed streaming event sequence
has exactly one `done` event, the `done` event is last, and it carries the
merged and deduplicated result of all issues collected from the stages
that succeeded; the result's count is its issue-list length and no two of
its issues share a dedup key. -/
theorem claim2_stream_terminal_done (content : Str)
    (ruleO t1 p1 t2 p2 : Except Str (List CheckIssue)) :
    ((generateStream content ruleO t1 p1 t2 p2).filter
        (fun e => e.step == "done".data)).length = 1 ∧
    (generateStream content ruleO t1 p1 t2 p2).getLast? =
      some (streamDoneEvent content ruleO t1 p1 t2 p2) ∧
    (streamDoneEvent content ruleO t1 p1 t2 p2).result =
      some ⟨(dedupIssues (streamCollected content ruleO t1 p1 t2 p2)).length,
        dedupIssues (streamCollected content ruleO t1 p1 t2 p2)⟩ ∧
    List.Pairwise (fun a b => issueKey a ≠ issueKey b)
      (dedupIssues (streamCollected content ruleO t1 p1 t2 p2)) := by
  refine ⟨?_, ?_, rfl, dedupIssues_pairwise _⟩
  · unfold generateStream
    rw [List.filter_append]
    rw [List.filter_eq_nil_iff.mpr (fun e he => by
      simp only [Bool.not_eq_true]
      exact streamPrefixEvents_step he)]
    simp [streamDoneEvent]
  · unfold generateStream
    rw [List.getLast?_concat]

theorem typoCheckFrom_unfold (attempt : Nat → AttemptOutcome) (rc : Nat) :
    typoCheckFrom attempt rc =
      match attempt rc with
      | .parsed items =>
        .ok (postFilterAux "typo".data "warning".data "ai_typo".data [] items)
      | .extractFail =>
        if rc < maxRetries then typoCheckFrom attempt (rc + 1)
        else .error "AI 返回格式错误，无法解析 JSON".data
      | .decodeError m =>
        if rc < maxRetries then typoCheckFrom attempt (rc + 1)
        else .error ("AI 错字检查返回格式错误: ".data ++ m)
      | .callError m =>
        if rc < maxRetries then typoCheckFrom attempt (rc + 1)
        else .error ("AI 错字检查失败: ".data ++ m) := by
  rw [typoCheckFrom]
  cases attempt rc with
  | parsed items => rfl
  | extractFail => by_cases h : rc < maxRetries <;> simp [h]
  | decodeError m => by_cases h : rc < maxRetries <;> simp [h]
  | callError m => by_cases h : rc < maxRetries <;> simp [h]

theorem punctCheckFrom_unfold (attempt : Nat → AttemptOutcome) (rc : Nat) :
    punctCheckFrom attempt rc =
      match attempt rc with
      | .parsed items =>
        .ok (postFilterAux "punctuation".data "error".data "ai_punctuation".data [] items)
      | .extractFail =>
        if rc < maxRetries then punctCheckFrom attempt (rc + 1)
        else .error "AI 返回格式错误，无法解析 JSON".data
      | .decodeError m =>
        if rc < maxRetries then punctCheckFrom attempt (rc + 1)
        else .error ("AI 标点检查返回格式错误: ".data ++ m)
      | .callError m =>
        if rc < maxRetries then punctCheckFrom attempt (rc + 1)
        else .error ("AI 标点检查失败: ".data ++ m) := by
  rw [punctCheckFrom]
  cases attempt rc with
  | parsed items => rfl
  | extractFail => by_cases h : rc < maxRetries <;> simp [h]
  | decodeError m => by_cases h : rc < maxRetries <;> simp [h]
  | callError m => by_cases h : rc < maxRetries <;> simp [h]

/-- Claim C4: a failing agent call (extraction failure, JSON-decode
failure, or transport/call failure) is retried exactly once: an
unparsable first reply followed by a valid empty-issues reply returns the
empty list without raising, a failure on both attempts raises `AgentError`
with a non-empty descriptive cause (never a silent partial result), and
the result depends only on the first two attempt outcomes.  This holds for
both agent roles. -/
theorem claim4_agent_retry_policy (attempt attempt' : Nat → AttemptOutcome) :
    (attempt 0 = AttemptOutcome.extractFail →
      attempt 1 = AttemptOutcome.parsed [] →
      typoCheckFrom attempt 0 = Except.ok [] ∧
      punctCheckFrom attempt 0 = Except.ok []) ∧
    (AttemptOutcome.isFail (attempt 0) = true →
      AttemptOutcome.isFail (attempt 1) = true →
      (∃ m, m ≠ [] ∧ typoCheckFrom attempt 0 = Except.error m) ∧
      (∃ m, m ≠ [] ∧ punctCheckFrom attempt 0 = Except.error m)) ∧
    (attempt 0 = attempt' 0 → attempt 1 = attempt' 1 →
      typoCheckFrom attempt 0 = typoCheckFrom attempt' 0 ∧
      punctCheckFrom attempt 0 = punctCheckFrom attempt' 0) := by
  have hmax : (0 : Nat) < maxRetries := by decide
  have hmax1 : ¬ (1 : Nat) < maxRetries := by decide
  refine ⟨?_, ?_, ?_⟩
  · intro h0 h1
    rw [typoCheckFrom_unfold, h0, if_pos hmax, typoCheckFrom_unfold, h1]
    rw [punctCheckFrom_unfold, h0, if_pos hmax, punctCheckFrom_unfold, h1]
    exact ⟨rfl, rfl⟩
  · intro h0 h1
    constructor
    · rw [typoCheckFrom_unfold]
      cases ha0 : attempt 0 with
      | parsed items => rw [ha0] at h0; cases h0
      | extractFail =>
        rw [if_pos hmax, typoCheckFrom_unfold]
        cases ha1 : attempt 1 with
        | parsed items => rw [ha1] at h1; cases h1
        | extractFail => exact ⟨_, by decide, rfl⟩
        | decodeError m => exact ⟨_, by simp, rfl⟩
        | callError m => exact ⟨_, by simp, rfl⟩
      | decodeError m =>
        rw [if_pos hmax, typoCheckFrom_unfold]
        cases ha1 : attempt 1 with
        | parsed items => rw [ha1] at h1; cases h1
        | extractFail => exact ⟨_, by decide, rfl⟩
        | decodeError m' => exact ⟨_, by simp, rfl⟩
        | callError m' => exact ⟨_, by simp, rfl⟩
      | callError m =>
        rw [if_pos hmax, typoCheckFrom_unfold]
        cases ha1 : attempt 1 with
        | parsed items => rw [ha1] at h1; cases h1
        | extractFail => exact ⟨_, by decide, rfl⟩
        | decodeError m' => exact ⟨_, by simp, rfl⟩
        | callError m' => exact ⟨_, by simp, rfl⟩
    · rw [punctCheckFrom_unfold]
      cases ha0 : attempt 0 with
      | parsed items => rw [ha0] at h0; cases h0
      | extractFail =>
        rw [if_pos hmax, punctCheckFrom_unfold]
        cases ha1 : attempt 1 with
        | parsed items => rw [ha1] at h1; cases h1
        | extractFail => exact ⟨_, by decide, rfl⟩
        | decodeError m => exact ⟨_, by simp, rfl⟩
        | callError m => exact ⟨_, by simp, rfl⟩
      | decodeError m =>
        rw [if_pos hmax, punctCheckFrom_unfold]
        cases ha1 : attempt 1 with
        | parsed items => rw [ha1] at h1; cases h1
        | extractFail => exact ⟨_, by decide, rfl⟩
        | decodeError m' => exact ⟨_, by simp, rfl⟩
        | callError m' => exact ⟨_, by simp, rfl⟩
      | callError m =>
        rw [if_pos hmax, punctCheckFrom_unfold]
        cases ha1 : attempt 1 with
        | parsed items => rw [ha1] at h1; cases h1
        | extractFail => exact ⟨_, by decide, rfl⟩
        | decodeError m' => exact ⟨_, by simp, rfl⟩
        | callError m' => exact ⟨_, by simp, rfl⟩
  · intro h0 h1
    constructor
    · rw [typoCheckFrom_unfold, typoCheckFrom_unfold attempt', ← h0]
      cases ha0 : attempt 0 with
      | parsed items => rfl
      | extractFail =>
        rw [if_pos hmax, if_pos hmax, typoCheckFrom_unfold,
          typoCheckFrom_unfold attempt', ← h1]
        cases attempt 1 <;> simp [maxRetries]
      | decodeError m =>
        rw [if_pos hmax, if_pos hmax, typoCheckFrom_unfold,
          typoCheckFrom_unfold attempt', ← h1]
        cases attempt 1 <;> simp [maxRetries]
      | callError m =>
        rw [if_pos hmax, if_pos hmax, typoCheckFrom_unfold,
          typoCheckFrom_unfold attempt', ← h1]
        cases attempt 1 <;> simp [maxRetries]
    · rw [punctCheckFrom_unfold, punctCheckFrom_unfold attempt', ← h0]
      cases ha0 : attempt 0 with
      | parsed items => rfl
      | extractFail =>
        rw [if_pos hmax, if_pos hmax, punctCheckFrom_unfold,
          punctCheckFrom_unfold attempt', ← h1]
        cases attempt 1 <;> simp [maxRetries]
      | decodeError m =>
        rw [if_pos hmax, if_pos hmax, punctCheckFrom_unfold,
          punctCheckFrom_unfold attempt', ← h1]
        cases attempt 1 <;> simp [maxRetries]
      | callError m =>
        rw [if_pos hmax, if_pos hmax, punctCheckFrom_unfold,
          punctCheckFrom_unfold attempt', ← h1]
        cases attempt 1 <;> simp [maxRetries]

/-- Witness for C4: an unparsable first reply with a valid empty-issues
retry returns the empty list for both agents. -/
theorem claim4_witness :
    typoCheckFrom
        (fun n => if n = 0 then AttemptOutcome.extractFail
          else AttemptOutcome.parsed []) 0 = Except.ok [] ∧
    punctCheckFrom
        (fun n => if n = 0 then AttemptOutcome.extractFail
          else AttemptOutcome.parsed []) 0 = Except.ok [] :=
  (claim4_agent_retry_policy
    (fun n => if n = 0 then AttemptOutcome.extractFail
      else AttemptOutcome.parsed [])
    (fun n => if n = 0 then AttemptOutcome.extractFail
      else AttemptOutcome.parsed [])).1 (by decide) (by decide)

theorem dropWhile_eq_drop (p : Char → Bool) (l : Str) :
    l.dropWhile p = l.drop (l.takeWhile p).length := by
  have h := List.takeWhile_append_dropWhile p l
  have h2 := congrArg (List.drop (l.takeWhile p).length) h
  rw [List.drop_left] at h2
  rw [h2]

theorem takeWhile_decomp (p : Char → Bool) (l : Str) :
    l = l.takeWhile p ++ l.drop (l.takeWhile p).length := by
  rw [← dropWhile_eq_drop]
  exact (List.takeWhile_append_dropWhile p l).symm

theorem prefix_decomp {pre l : Str} (h : pre <+: l) :
    l = pre ++ l.drop pre.length := by
  obtain ⟨t, rfl⟩ := h
  rw [List.drop_left]

theorem parseMarker_sound {m : Char} {line g1 : Str}
    (h : parseMarker m line = some g1) :
    g1 ≠ [] ∧ (∀ c ∈ g1, c.isDigit) ∧ g1 = line.takeWhile Char.isDigit ∧
      ∃ rest, line = g1 ++ m :: rest := by
  unfold parseMarker at h
  dsimp only at h
  split at h
  · cases h
  · next hne =>
    split at h
    · next c tail heq =>
      split at h
      · next hcm =>
        simp only [Option.some.injEq] at h
        subst h
        subst hcm
        refine ⟨fun he => by simp [he] at hne,
          fun x hx => List.mem_takeWhile_imp hx, rfl, tail, ?_⟩
        have hd := takeWhile_decomp Char.isDigit line
        rw [heq] at hd
        exact hd
      · cases h
    · cases h

theorem parseParen_sound {o c : Char} {line g1 : Str}
    (h : parseParen o c line = some g1) :
    g1 ≠ [] ∧ (∀ x ∈ g1, x.isDigit) ∧ ∃ rest, line = o :: (g1 ++ c :: rest) := by
  unfold parseParen at h
  split at h
  · next a r =>
    dsimp only at h
    split at h
    · next hao =>
      split at h
      · cases h
      · next hne =>
        split at h
        · next b tail heq =>
          split at h
          · next hbc =>
            simp only [Option.some.injEq] at h
            subst h
            subst hao
            subst hbc
            refine ⟨fun he => by simp [he] at hne,
              fun x hx => List.mem_takeWhile_imp hx, tail, ?_⟩
            have hd := takeWhile_decomp Char.isDigit r
            rw [heq] at hd
            rw [← hd]
          · cases h
        · cases h
    · cases h
  · cases h

theorem parseDotSpace_sound {line g1 ws : Str}
    (h : parseDotSpace line = some (g1, ws)) :
    g1 ≠ [] ∧ ws ≠ [] ∧ (∀ x ∈ g1, x.isDigit) ∧ (∀ x ∈ ws, isPySpace x) ∧
      ∃ rest, line = g1 ++ '.' :: (ws ++ rest) := by
  unfold parseDotSpace at h
  dsimp only at h
  split at h
  · cases h
  · next hne =>
    split at h
    · next r2 heq =>
      split at h
      · cases h
      · next hwsne =>
        simp only [Option.some.injEq, Prod.mk.injEq] at h
        obtain ⟨rfl, rfl⟩ := h
        refine ⟨fun he => by simp [he] at hne,
          fun he => by simp [he] at hwsne,
          fun x hx => List.mem_takeWhile_imp hx,
          fun x hx => List.mem_takeWhile_imp hx,
          r2.drop (r2.takeWhile isPySpace).length, ?_⟩
        have hd := takeWhile_decomp Char.isDigit line
        rw [heq] at hd
        have hd2 := takeWhile_decomp isPySpace r2
        exact hd.trans (by rw [← hd2])
    · cases h

theorem parseDup_sound {line g1 g2 : Str} {hasDot : Bool} {g3 : Str}
    (h : parseDup line = some (g1, g2, hasDot, g3)) :
    g1 ≠ [] ∧ g2 ≠ [] ∧ (∀ x ∈ g1, x.isDigit) ∧ (∀ x ∈ g2, x.isDigit) ∧
      ∃ rest, line = g1 ++ '.' :: (g2 ++
          (if hasDot then '.' :: (g3 ++ rest) else g3 ++ rest)) ∧
        (hasDot = false → (g3 ++ rest).head? ≠ some '.') := by
  unfold parseDup at h
  dsimp only at h
  split at h
  · cases h
  · next hne1 =>
    split at h
    · next r2 heq1 =>
      split at h
      · cases h
      · next hne2 =>
        split at h
        · next r4 heq2 =>
          simp only [Option.some.injEq, Prod.mk.injEq] at h
          obtain ⟨rfl, rfl, hdot, rfl⟩ := h
          subst hdot
          have hg3 : (r4.takeWhile (· ≠ '\n')).take 3 <+: r4 :=
            ((List.take_prefix 3 _).trans (List.takeWhile_prefix _))
          refine ⟨fun he => by simp [he] at hne1,
            fun he => by simp [he] at hne2,
            fun x hx => List.mem_takeWhile_imp hx,
            fun x hx => List.mem_takeWhile_imp hx,
            r4.drop ((r4.takeWhile (· ≠ '\n')).take 3).length, ?_, fun hf => by cases hf⟩
          have hd := takeWhile_decomp Char.isDigit line
          rw [heq1] at hd
          have hd2 := takeWhile_decomp Char.isDigit r2
          rw [heq2] at hd2
          exact hd.trans (by rw [if_pos rfl, ← prefix_decomp hg3, ← hd2])
        · next hnodot =>
          simp only [Option.some.injEq, Prod.mk.injEq] at h
          obtain ⟨rfl, rfl, hdot, rfl⟩ := h
          subst hdot
          have hg3 : ((r2.drop (r2.takeWhile Char.isDigit).length).takeWhile
                (· ≠ '\n')).take 3 <+: r2.drop (r2.takeWhile Char.isDigit).length :=
            ((List.take_prefix 3 _).trans (List.takeWhile_prefix _))
          refine ⟨fun he => by simp [he] at hne1,
            fun he => by simp [he] at hne2,
            fun x hx => List.mem_takeWhile_imp hx,
            fun x hx => List.mem_takeWhile_imp hx,
            (r2.drop (r2.takeWhile Char.isDigit).length).drop
              (((r2.drop (r2.takeWhile Char.isDigit).length).takeWhile
                (· ≠ '\n')).take 3).length, ?_, fun _ => ?_⟩
          · have hd := takeWhile_decomp Char.isDigit line
            rw [heq1] at hd
            have hd2 := takeWhile_decomp Char.isDigit r2
            exact hd.trans (by rw [if_neg (by simp), ← prefix_decomp hg3, ← hd2])
          · rw [← prefix_decomp hg3]
            cases hr : r2.drop (r2.takeWhile Char.isDigit).length with
            | nil => simp
            | cons x xs =>
              simp only [List.head?_cons, ne_eq, Option.some.injEq]
              intro hx
              subst hx
              exact hnodot xs hr
    · cases h

theorem parseSeqNumber_sound {line : Str} {n : Nat}
    (h : parseSeqNumber line = some n) :
    ∃ mk rest, (mk = '.' ∨ mk = '、' ∨ mk = '。') ∧
      line = line.takeWhile Char.isDigit ++ mk :: rest ∧
      line.takeWhile Char.isDigit ≠ [] ∧
      n = digitsToNat (line.takeWhile Char.isDigit) := by
  unfold parseSeqNumber at h
  dsimp only at h
  split at h
  · cases h
  · next hne =>
    split at h
    · next c tail heq =>
      split at h
      · next hc =>
        simp only [Option.some.injEq] at h
        subst h
        have hd := takeWhile_decomp Char.isDigit line
        rw [heq] at hd
        refine ⟨c, tail, ?_, hd, fun he => by simp [he] at hne, rfl⟩
        simp only [Bool.or_eq_true, decide_eq_true_eq] at hc
        tauto
      · cases h
    · cases h

theorem append_dot_ne {pre rest : Str} {n : Nat} (hrest : rest ≠ []) :
    pre ++ '.' :: rest ≠ natChars n ++ ['.'] := by
  intro h
  have hlen := congrArg List.length h
  simp only [List.length_append, List.length_cons, List.length_nil] at hlen
  have hrl : 1 ≤ rest.length := length_pos_of_ne_nil hrest
  have hlt : pre.length < (natChars n).length := by omega
  have h1 : (pre ++ '.' :: rest)[pre.length]? = some '.' := by
    rw [List.getElem?_append_right (Nat.le_refl _)]
    simp
  rw [h] at h1
  rw [List.getElem?_append] at h1
  rw [if_pos hlt] at h1
  have hmem : '.' ∈ natChars n := by
    rw [List.getElem?_eq_getElem hlt] at h1
    injection h1 with h2
    exact h2 ▸ List.getElem_mem hlt
  exact absurd (natChars_isDigit hmem) (by decide)

theorem append_last_ne_dot {g : Str} {c : Char} {n : Nat} (hc : c ≠ '.') :
    g ++ [c] ≠ natChars n ++ ['.'] := by
  intro h
  have h1 := congrArg List.getLast? h
  rw [List.getLast?_concat, List.getLast?_concat] at h1
  injection h1 with h2
  exact hc h2

theorem cons_ne_natChars_dot {c : Char} {l : Str} {n : Nat}
    (hc : c.isDigit = false) : c :: l ≠ natChars n ++ ['.'] := by
  intro h
  match hh : natChars n with
  | [] => exact natChars_ne_nil n hh
  | d :: ds =>
    rw [hh] at h
    injection h with h1 _
    have hd : d.isDigit :=
      natChars_isDigit (show d ∈ natChars n by
        rw [hh]; exact List.mem_cons_self d ds)
    rw [← h1] at hd
    rw [hd] at hc
    cases hc

/-- No `_check_number_format` issue has the renumbering shape
`natChars n ++ "."` as its `original`. -/
theorem numberFormat_original_ne_seq {line loc : Str} {i : CheckIssue}
    (hmem : i ∈ numberFormatCheck line loc) (n : Nat) :
    i.original ≠ natChars n ++ ['.'] := by
  unfold numberFormatCheck at hmem
  split at hmem
  · next g1 g2 hd g3 hdup =>
    simp only [List.mem_singleton] at hmem
    subst hmem
    obtain ⟨hg1, hg2, _, _, rest, hline, _⟩ := parseDup_sound hdup
    show (if (g1 ++ '.' :: g2 ++ ['.']).isPrefixOf line
        then g1 ++ '.' :: g2 ++ ['.'] else g1 ++ '.' :: g2) ++ g3 ≠ _
    by_cases hp : (g1 ++ '.' :: g2 ++ ['.']).isPrefixOf line = true
    · rw [if_pos hp]
      have hshape : (g1 ++ '.' :: g2 ++ ['.']) ++ g3 =
          g1 ++ '.' :: ((g2 ++ ['.']) ++ g3) := by
        simp [List.append_assoc]
      rw [hshape]
      exact append_dot_ne (by simp [hg2])
    · rw [if_neg hp]
      have hshape : (g1 ++ '.' :: g2) ++ g3 = g1 ++ '.' :: (g2 ++ g3) := by
        simp [List.append_assoc]
      rw [hshape]
      exact append_dot_ne (by simp [hg2])
  · split at hmem
    · next g1 hmk =>
      simp only [List.mem_singleton] at hmem
      subst hmem
      exact append_last_ne_dot (by decide)
    · split at hmem
      · next g1 hmk =>
        simp only [List.mem_singleton] at hmem
        subst hmem
        exact append_last_ne_dot (by decide)
      · split at hmem
        · next g1 hpp =>
          simp only [List.mem_singleton] at hmem
          subst hmem
          show '（' :: (g1 ++ ['）']) ≠ _
          exact cons_ne_natChars_dot (by decide)
        · split at hmem
          · next g1 hpp =>
            simp only [List.mem_singleton] at hmem
            subst hmem
            show '(' :: (g1 ++ [')']) ≠ _
            exact cons_ne_natChars_dot (by decide)
          · split at hmem
            · next g1 ws hds =>
              simp only [List.mem_singleton] at hmem
              subst hmem
              obtain ⟨_, hws, _, _, _, _⟩ := parseDotSpace_sound hds
              exact append_dot_ne hws
            · cases hmem

theorem extraSpacesCheck_severity {line loc : Str} {i : CheckIssue}
    (h : i ∈ extraSpacesCheck line loc) : i.severity = "warning".data := by
  unfold extraSpacesCheck at h
  obtain ⟨x, _, rfl⟩ := List.mem_map.mp h
  rfl

theorem englishPunctCheck_type {line loc : Str} {i : CheckIssue}
    (h : i ∈ englishPunctCheck line loc) : i.type = "punctuation".data := by
  unfold englishPunctCheck at h
  rcases List.mem_append.mp h with h | h
  · obtain ⟨p, _, hp⟩ := List.mem_flatMap.mp h
    obtain ⟨pos, _, rfl⟩ := List.mem_map.mp hp
    rfl
  · obtain ⟨pos, _, rfl⟩ := List.mem_map.mp h
    rfl

theorem slashCheck_type {line loc : Str} {i : CheckIssue}
    (h : i ∈ slashCheck line loc) : i.type = "punctuation".data := by
  unfold slashCheck at h
  obtain ⟨x, _, rfl⟩ := List.mem_map.mp h
  rfl

theorem consecutiveCheck_type {line loc : Str} {i : CheckIssue}
    (h : i ∈ consecutiveCheck line loc) : i.type = "punctuation".data := by
  unfold consecutiveCheck at h
  rcases List.mem_append.mp h with h | h
  · obtain ⟨x, _, rfl⟩ := List.mem_map.mp h
    rfl
  · obtain ⟨p, _, hp⟩ := List.mem_flatMap.mp h
    obtain ⟨x, _, rfl⟩ := List.mem_map.mp hp
    rfl

theorem bracketsCheck_type {line loc : Str} {i : CheckIssue}
    (h : i ∈ bracketsCheck line loc) : i.type = "punctuation".data := by
  unfold bracketsCheck at h
  rcases List.mem_append.mp h with h | h <;>
  · obtain ⟨pos, _, hp⟩ := List.mem_flatMap.mp h
    split at hp
    all_goals first
      | cases hp
      | (split at hp
         · simp only [List.mem_singleton] at hp
           subst hp
           rfl
         · cases hp)
      | (split at hp
         · split at hp
           · simp only [List.mem_singleton] at hp
             subst hp
             rfl
           · cases hp
         · cases hp)

theorem midPeriodCheck_type {line loc : Str} {i : CheckIssue}
    (h : i ∈ midPeriodCheck line loc) : i.type = "punctuation".data := by
  unfold midPeriodCheck at h
  split at h
  · cases h
  · dsimp only at h
    split at h
    · cases h
    · obtain ⟨pos, _, rfl⟩ := List.mem_map.mp h
      rfl

theorem endingPunctCheck_type {line loc : Str} {i : CheckIssue}
    (h : i ∈ endingPunctCheck line loc) : i.type = "punctuation".data := by
  unfold endingPunctCheck at h
  split at h
  · cases h
  · split at h
    · cases h
    · dsimp only at h
      split at h
      · simp only [List.mem_singleton] at h
        subst h
        rfl
      · split at h
        · simp only [List.mem_singleton] at h
          subst h
          rfl
        · split at h
          · simp only [List.mem_singleton] at h
            subst h
            rfl
          · split at h
            · simp only [List.mem_singleton] at h
              subst h
              rfl
            · cases h

theorem mem_of_mem_ite_nil {c : Prop} [Decidable c] {l : List CheckIssue}
    {i : CheckIssue} (h : i ∈ if c then l else []) : i ∈ l := by
  split at h
  · exact h
  · cases h

/-- No `_check_line` issue is shaped like the sequence-gap renumbering
issue (`type` format, `severity` error, `original = natChars n ++ "."`):
the only format/error issues come from `_check_number_format`, whose
originals never have that shape. -/
theorem checkLine_no_seq_shape {config : RuleConfig} {line loc : Str}
    {i : CheckIssue} (h : i ∈ checkLineIssues config line loc)
    (ht : i.type = "format".data) (hs : i.severity = "error".data) (n : Nat) :
    i.original ≠ natChars n ++ ['.'] := by
  unfold checkLineIssues at h
  simp only [List.mem_append] at h
  rcases h with ((((((h | h) | h) | h) | h) | h) | h) | h
  · exact numberFormat_original_ne_seq (mem_of_mem_ite_nil h) n
  · have hw := extraSpacesCheck_severity (mem_of_mem_ite_nil h)
    rw [hw] at hs
    exact absurd hs (by decide)
  · have hp := englishPunctCheck_type (mem_of_mem_ite_nil h)
    rw [hp] at ht
    exact absurd ht (by decide)
  · have hp := slashCheck_type (mem_of_mem_ite_nil h)
    rw [hp] at ht
    exact absurd ht (by decide)
  · have hp := consecutiveCheck_type (mem_of_mem_ite_nil h)
    rw [hp] at ht
    exact absurd ht (by decide)
  · have hp := bracketsCheck_type (mem_of_mem_ite_nil h)
    rw [hp] at ht
    exact absurd ht (by decide)
  · have hp := endingPunctCheck_type (mem_of_mem_ite_nil h)
    rw [hp] at ht
    exact absurd ht (by decide)
  · have hp := midPeriodCheck_type (mem_of_mem_ite_nil h)
    rw [hp] at ht
    exact absurd ht (by decide)

/-- Claim C6 as stated is false: the expected-next-number counter does
*not* advance on every line starting with a digit.  Inside the 本周工作
section, the itemized line `2月完成。` starts with a digit but does not
match `^(\d+)[.、。]`, and the counter stays at its old value instead of
advancing by one. -/
theorem claim6_counterexample :
    (("2月完成。".data : Str).headD ' ').isDigit = true ∧
    containsSub "本周工作".data "2月完成。".data = false ∧
    containsSub "下周计划".data "2月完成。".data = false ∧
    ((ruleScanStep defaultRuleConfig (⟨"本周工作".data, 0, 0, 0⟩ : ScanState)
        "2月完成。".data).1).last_number ≠
      ((⟨"本周工作".data, 0, 0, 0⟩ : ScanState)).last_number + 1 := by
  refine ⟨by dsimp only; decide, by dsimp only; decide, by dsimp only; decide, by decide⟩

theorem ruleScanStep_itemized (config : RuleConfig) (st : ScanState)
    (rawLine : Str)
    (hnotA : containsSub "本周工作".data (pyStrip rawLine) = false)
    (hnotB : containsSub "下周计划".data (pyStrip rawLine) = false)
    (hdigit : ((pyStrip rawLine).headD ' ').isDigit = true) :
    ruleScanStep config st rawLine =
      (let line := pyStrip rawLine
       let st1 := if st.current_section.isEmpty then st
         else { st with line_index_in_section := st.line_index_in_section + 1 }
       let st2 := { st1 with item_index := st1.item_index + 1 }
       let loc := st2.current_section ++ "第".data ++
         natChars st2.item_index ++ "条".data
       let lineIssues := checkLineIssues config line loc
       if config.check_number_sequence then
         match parseSeqNumber line with
         | some current =>
           (({ st2 with last_number := st2.last_number + 1 }),
            lineIssues ++
              (if 0 < st2.last_number ∧ current ≠ st2.last_number + 1
               then [seqIssue line loc current (st2.last_number + 1)] else []))
         | none => (st2, lineIssues)
       else (st2, lineIssues)) := by
  have hne : (pyStrip rawLine).isEmpty = false := by
    cases hl : pyStrip rawLine with
    | nil => rw [hl] at hdigit; exact absurd hdigit (by decide)
    | cons a t => rfl
  unfold ruleScanStep
  dsimp only
  rw [hne, hnotA, hnotB, hdigit]
  rfl

/-- Claim C6 (amended): with sequence checking enabled, on an itemized
line (digit-start, not a heading) the expected-next-number counter
advances by exactly one iff the line matches `^(\d+)[.、。]` — whatever
digits are actually written — and stays unchanged otherwise; and a
renumbering issue (`original` the parsed number with an ASCII period,
`suggestion` the expected number with an ASCII period) is emitted iff the
parsed number disagrees with the expectation *and* a previous matched line
exists in the section (`last_number > 0`). -/
theorem claim6_sequence_counter_amended (config : RuleConfig) (st : ScanState)
    (rawLine : Str) (hseq : config.check_number_sequence = true)
    (hnotA : containsSub "本周工作".data (pyStrip rawLine) = false)
    (hnotB : containsSub "下周计划".data (pyStrip rawLine) = false)
    (hdigit : ((pyStrip rawLine).headD ' ').isDigit = true) :
    (∀ n, parseSeqNumber (pyStrip rawLine) = some n →
      (ruleScanStep config st rawLine).1.last_number = st.last_number + 1) ∧
    (parseSeqNumber (pyStrip rawLine) = none →
      (ruleScanStep config st rawLine).1.last_number = st.last_number) ∧
    (∀ n, parseSeqNumber (pyStrip rawLine) = some n →
      ((∃ i ∈ (ruleScanStep config st rawLine).2,
          i.type = "format".data ∧ i.severity = "error".data ∧
          i.original = natChars n ++ ['.'] ∧
          i.suggestion = natChars (st.last_number + 1) ++ ['.']) ↔
        (0 < st.last_number ∧ n ≠ st.last_number + 1))) := by
  rw [ruleScanStep_itemized config st rawLine hnotA hnotB hdigit]
  dsimp only
  by_cases hcs : st.current_section.isEmpty = true
  case pos =>
    rw [if_pos hcs, if_pos hseq]
    cases hp : parseSeqNumber (pyStrip rawLine) with
    | none =>
      refine ⟨?_, ?_, ?_⟩
      · intro n hn
        cases hn
      · intro _
        rfl
      · intro n hn
        cases hn
    | some current =>
      refine ⟨?_, ?_, ?_⟩
      · intro n hn
        rfl
      · intro hn
        cases hn
      · intro n hn
        injection hn with hcur
        subst hcur
        constructor
        · rintro ⟨i, hi, ht, hs, ho, hsg⟩
          by_contra hcond
          have hi' : i ∈ checkLineIssues config (pyStrip rawLine)
              (st.current_section ++ "第".data ++
                natChars (st.item_index + 1) ++ "条".data) ++
              (if 0 < st.last_number ∧ current ≠ st.last_number + 1
               then [seqIssue (pyStrip rawLine)
                 (st.current_section ++ "第".data ++
                   natChars (st.item_index + 1) ++ "条".data)
                 current (st.last_number + 1)] else []) := hi
          rw [if_neg hcond] at hi'
          rw [List.append_nil] at hi'
          exact checkLine_no_seq_shape hi' ht hs current ho
        · intro hcond
          show ∃ i ∈ checkLineIssues config (pyStrip rawLine)
              (st.current_section ++ "第".data ++
                natChars (st.item_index + 1) ++ "条".data) ++
              (if 0 < st.last_number ∧ current ≠ st.last_number + 1
               then [seqIssue (pyStrip rawLine)
                 (st.current_section ++ "第".data ++
                   natChars (st.item_index + 1) ++ "条".data)
                 current (st.last_number + 1)] else []),
            i.type = "format".data ∧ i.severity = "error".data ∧
            i.original = natChars current ++ ['.'] ∧
            i.suggestion = natChars (st.last_number + 1) ++ ['.']
          refine ⟨seqIssue (pyStrip rawLine)
            (st.current_section ++ "第".data ++
              natChars (st.item_index + 1) ++ "条".data)
            current (st.last_number + 1), ?_, rfl, rfl, rfl, rfl⟩
          rw [if_pos hcond]
          exact List.mem_append_right _ (List.mem_singleton_self _)
  case neg =>
    rw [if_neg hcs, if_pos hseq]
    cases hp : parseSeqNumber (pyStrip rawLine) with
    | none =>
      refine ⟨?_, ?_, ?_⟩
      · intro n hn
        cases hn
      · intro _
        rfl
      · intro n hn
        cases hn
    | some current =>
      refine ⟨?_, ?_, ?_⟩
      · intro n hn
        rfl
      · intro hn
        cases hn
      · intro n hn
        injection hn with hcur
        subst hcur
        constructor
        · rintro ⟨i, hi, ht, hs, ho, hsg⟩
          by_contra hcond
          have hi' : i ∈ checkLineIssues config (pyStrip rawLine)
              (st.current_section ++ "第".data ++
                natChars (st.item_index + 1) ++ "条".data) ++
              (if 0 < st.last_number ∧ current ≠ st.last_number + 1
               then [seqIssue (pyStrip rawLine)
                 (st.current_section ++ "第".data ++
                   natChars (st.item_index + 1) ++ "条".data)
                 current (st.last_number + 1)] else []) := hi
          rw [if_neg hcond] at hi'
          rw [List.append_nil] at hi'
          exact checkLine_no_seq_shape hi' ht hs current ho
        · intro hcond
          show ∃ i ∈ checkLineIssues config (pyStrip rawLine)
              (st.current_section ++ "第".data ++
                natChars (st.item_index + 1) ++ "条".data) ++
              (if 0 < st.last_number ∧ current ≠ st.last_number + 1
               then [seqIssue (pyStrip rawLine)
                 (st.current_section ++ "第".data ++
                   natChars (st.item_index + 1) ++ "条".data)
                 current (st.last_number + 1)] else []),
            i.type = "format".data ∧ i.severity = "error".data ∧
            i.original = natChars current ++ ['.'] ∧
            i.suggestion = natChars (st.last_number + 1) ++ ['.']
          refine ⟨seqIssue (pyStrip rawLine)
            (st.current_section ++ "第".data ++
              natChars (st.item_index + 1) ++ "条".data)
            current (st.last_number + 1), ?_, rfl, rfl, rfl, rfl⟩
          rw [if_pos hcond]
          exact List.mem_append_right _ (List.mem_singleton_self _)

/-- Witness for the amended C6: a matched itemized line `3.x。` after one
earlier item advances the counter and is flagged `3.` → `2.`. -/
theorem claim6_witness :
    ((ruleScanStep defaultRuleConfig (⟨"本周工作".data, 1, 1, 1⟩ : ScanState)
        "3.x。".data).1).last_number = 2 ∧
    (∃ i ∈ (ruleScanStep defaultRuleConfig
        (⟨"本周工作".data, 1, 1, 1⟩ : ScanState) "3.x。".data).2,
      i.type = "format".data ∧ i.severity = "error".data ∧
      i.original = natChars 3 ++ ['.'] ∧
      i.suggestion = natChars 2 ++ ['.']) := by
  have h := claim6_sequence_counter_amended defaultRuleConfig
    (⟨"本周工作".data, 1, 1, 1⟩ : ScanState) "3.x。".data
    (by decide) (by decide) (by decide) (by decide)
  exact ⟨h.1 3 (by decide), (h.2.2 3 (by decide)).mpr (by decide)⟩

theorem midOriginal_spec (content line : Str) (pos : Nat) :
    pyCount line (midOriginal content line pos) = 1 ∨
      midOriginal content line pos = pySliceNat content (pos - 3) (pos + 4) := by
  unfold midOriginal
  dsimp only
  cases hf : (List.range' (pySliceNat content (pos - 3) (pos + 4)).length
      (min content.length (pos + 10) -
        (pySliceNat content (pos - 3) (pos + 4)).length)).find?
      (fun L => pyCount line (midWindowSlice content pos L) == 1) with
  | none => exact Or.inr rfl
  | some L =>
    left
    have hp := List.find?_some hf
    simpa using hp

/-- Claim C7 as stated is false: when no window in the growth schedule is
unique within the line, `_check_mid_sentence_period` falls back to the
initial context window, not to the entire line.  On
`1.。ab。ab。ab。ab` the first emitted issue has `original` `。ab。`,
which occurs twice in the line and is neither the whole line nor the whole
stripped content. -/
theorem claim7_counterexample :
    ∃ i ∈ midPeriodCheck "1.。ab。ab。ab。ab".data "L".data,
      pyCount "1.。ab。ab。ab。ab".data i.original ≠ 1 ∧
      i.original ≠ "1.。ab。ab。ab。ab".data ∧
      i.original ≠ stripLeadingNumber "1.。ab。ab。ab。ab".data := by
  decide

/-- Claim C7 (amended): every issue of `_check_mid_sentence_period` comes
from an internal CJK full stop of the number-stripped content; its
`original` is the window computed by the growth schedule and its
`suggestion` replaces the first full stop of that window by a semicolon;
the window either occurs exactly once in the whole line, or — when no
window within the bound is unique — is the initial clipped context window
`content[pos-3 : pos+4]` (not the entire line). -/
theorem claim7_mid_sentence_window_amended (line loc : Str) (i : CheckIssue)
    (h : i ∈ midPeriodCheck line loc) :
    ∃ pos, pos + 1 < (stripLeadingNumber line).length ∧
      (stripLeadingNumber line).getD pos ' ' = '。' ∧
      i.original = midOriginal (stripLeadingNumber line) line pos ∧
      i.suggestion = replaceFirstChar '。' '；' i.original ∧
      (pyCount line i.original = 1 ∨
        i.original = pySliceNat (stripLeadingNumber line) (pos - 3) (pos + 4)) := by
  unfold midPeriodCheck at h
  split at h
  · cases h
  · dsimp only at h
    split at h
    · cases h
    · obtain ⟨pos, hpos, rfl⟩ := List.mem_map.mp h
      obtain ⟨hcp, hlt⟩ := List.mem_filter.mp hpos
      obtain ⟨hplen, hchar⟩ := mem_charPositions.mp hcp
      simp only [decide_eq_true_eq] at hlt
      exact ⟨pos, by omega, hchar, rfl, rfl, midOriginal_spec _ _ _⟩

/-- Witness for the amended C7 on `1.a。b。`, whose single internal stop
has no unique window within the bound and falls back to the context
window `a。b。`. -/
theorem claim7_witness :
    ∃ pos, pos + 1 < (stripLeadingNumber "1.a。b。".data).length ∧
      (stripLeadingNumber "1.a。b。".data).getD pos ' ' = '。' ∧
      ({ type := "punctuation".data, severity := "error".data,
         location := "L".data, context := "a。b。".data,
         original := "a。b。".data, suggestion := "a；b。".data,
         source := "rule".data } : CheckIssue).original =
        midOriginal (stripLeadingNumber "1.a。b。".data) "1.a。b。".data pos ∧
      ({ type := "punctuation".data, severity := "error".data,
         location := "L".data, context := "a。b。".data,
         original := "a。b。".data, suggestion := "a；b。".data,
         source := "rule".data } : CheckIssue).suggestion =
        replaceFirstChar '。' '；'
          ({ type := "punctuation".data, severity := "error".data,
             location := "L".data, context := "a。b。".data,
             original := "a。b。".data, suggestion := "a；b。".data,
             source := "rule".data } : CheckIssue).original ∧
      (pyCount "1.a。b。".data
          ({ type := "punctuation".data, severity := "error".data,
             location := "L".data, context := "a。b。".data,
             original := "a。b。".data, suggestion := "a；b。".data,
             source := "rule".data } : CheckIssue).original = 1 ∨
        ({ type := "punctuation".data, severity := "error".data,
           location := "L".data, context := "a。b。".data,
           original := "a。b。".data, suggestion := "a；b。".data,
           source := "rule".data } : CheckIssue).original =
          pySliceNat (stripLeadingNumber "1.a。b。".data) (pos - 3) (pos + 4)) :=
  claim7_mid_sentence_window_amended "1.a。b。".data "L".data _ (by decide)

/-- Claim C9: the scan of `本周工作：\n1.完成项目报告；` evaluated on the
code.  The general branch behaviour holds (the trailing `；` is rewritten
and every suggestion ends in the canonical full stop), but the emitted
`original` is `告；` — the shortest *length-≥ 2* unique trailing window —
while the minimal unique trailing window containing `；` is `；` itself,
which is what the claim (and the repository's own test
`test_ending_with_semicolon`, which asserts `original == "；"` and
`suggestion == "。"`) requires.  The code's window search skips length 1,
contradicting its own test suite. -/
theorem claim9_terminal_rewrite_divergence :
    (ruleCheck "本周工作：\n1.完成项目报告；".data defaultRuleConfig).map
        (fun i => (i.original, i.suggestion)) =
      [("告；".data, "告。".data)] ∧
    specMinimalTrailingWindow "1.完成项目报告；".data '；' = some "；".data ∧
    ("告；".data : Str) ≠ "；".data ∧
    (∀ i ∈ ruleCheck "本周工作：\n1.完成项目报告；".data defaultRuleConfig,
      i.suggestion.getLast? = some '。') := by
  refine ⟨by dsimp only; decide, by dsimp only; decide, by dsimp only; decide, by decide⟩

theorem pySliceNat_length (s : Str) (a b : Nat) :
    (pySliceNat s a b).length = min b s.length - a := by
  simp [pySliceNat]

theorem pySliceNat_getD {s : Str} {a b pos : Nat} (h1 : a ≤ pos) (h2 : pos < b)
    (h3 : pos < s.length) :
    (pySliceNat s a b)[pos - a]? = some (s.getD pos ' ') := by
  unfold pySliceNat
  rw [List.getElem?_drop]
  have hpa : a + (pos - a) = pos := by omega
  rw [hpa]
  rw [List.getElem?_take, if_pos h2]
  rw [List.getD_eq_getElem?_getD, List.getElem?_eq_getElem h3]
  rfl

theorem mem_pySliceNat {s : Str} {a b pos : Nat} (h1 : a ≤ pos) (h2 : pos < b)
    (h3 : pos < s.length) : s.getD pos ' ' ∈ pySliceNat s a b := by
  have h := pySliceNat_getD h1 h2 h3
  rcases List.getElem?_eq_some.mp h with ⟨hlt, he⟩
  exact he ▸ List.getElem_mem hlt

theorem pySliceNat_ne_nil {s : Str} {a b : Nat} (h1 : a < s.length) (h2 : a < b) :
    pySliceNat s a b ≠ [] := by
  intro h
  have hl := congrArg List.length h
  rw [pySliceNat_length] at hl
  simp at hl
  omega

theorem replaceFirstChar_length (c d : Char) :
    ∀ s : Str, (replaceFirstChar c d s).length = s.length := by
  intro s
  induction s with
  | nil => rfl
  | cons a t ih =>
    unfold replaceFirstChar
    by_cases h : a = c
    · rw [if_pos h]
      simp
    · rw [if_neg h]
      simp [ih]

theorem seq_shape_ne {a b : Nat} (h : a ≠ b) :
    natChars a ++ ['.'] ≠ natChars b ++ ['.'] := by
  intro he
  have hd := congrArg List.dropLast he
  rw [List.dropLast_concat, List.dropLast_concat] at hd
  exact h (natChars_inj hd)

theorem getLast?_eq_of_getLastD {l : Str} {c : Char} (hne : l ≠ [])
    (h : l.getLastD ' ' = c) : l.getLast? = some c := by
  rw [List.getLastD_eq_getLast? ' ' l] at h
  cases hg : l.getLast? with
  | none => exact absurd (List.getLast?_eq_none_iff.mp hg) hne
  | some a =>
    rw [hg] at h
    simp at h
    rw [h]

theorem suffix_drop_of_eq_cons {l r : Str} {c : Char} {n : Nat}
    (h : l.drop n = c :: r) : r <:+ l := by
  have h2 : l.drop (n + 1) = r := by
    have h3 := congrArg (List.drop 1) h
    rw [List.drop_drop] at h3
    simpa [Nat.add_comm] using h3
  exact h2 ▸ List.drop_suffix (n + 1) l

theorem stripLeadingNumber_infix_self (line : Str) : stripLeadingNumber line <:+: line := by
  unfold stripLeadingNumber
  dsimp only
  split
  · exact List.infix_rfl
  · split
    · next c r heq =>
      split
      · have hr : r <:+ line := suffix_drop_of_eq_cons heq
        exact ((List.dropWhile_suffix isPySpace).trans hr).isInfix
      · exact List.infix_rfl
    · exact List.infix_rfl

/-- The `original` assembled by the duplicated-numbering branch of
`_check_number_format` is always a prefix of the line: the dotted variant
is chosen exactly when the line continues with a dot after `g1.g2`. -/
theorem parseDup_leading {line g1 g2 : Str} {hasDot : Bool} {g3 : Str}
    (h : parseDup line = some (g1, g2, hasDot, g3)) :
    (if (g1 ++ '.' :: g2 ++ ['.']).isPrefixOf line
     then g1 ++ '.' :: g2 ++ ['.'] else g1 ++ '.' :: g2) ++ g3 <+: line := by
  obtain ⟨hg1, hg2, _, _, rest, hline, hhead⟩ := parseDup_sound h
  cases hasDot with
  | true =>
    rw [if_pos rfl] at hline
    have hp : (g1 ++ '.' :: g2 ++ ['.']).isPrefixOf line = true := by
      rw [List.isPrefixOf_iff_prefix]
      refine ⟨g3 ++ rest, ?_⟩
      rw [hline]
      simp
    rw [if_pos hp]
    refine ⟨rest, ?_⟩
    rw [hline]
    simp
  | false =>
    rw [if_neg (by simp)] at hline
    have hp : ¬ (g1 ++ '.' :: g2 ++ ['.']).isPrefixOf line = true := by
      intro hpre
      rw [List.isPrefixOf_iff_prefix] at hpre
      obtain ⟨t, ht⟩ := hpre
      rw [hline] at ht
      have ht2 : g1 ++ ('.' :: (g2 ++ ('.' :: t))) =
          g1 ++ ('.' :: (g2 ++ (g3 ++ rest))) := by
        rw [← ht]
        simp
      have ht3 := List.append_cancel_left ht2
      injection ht3 with _ ht4
      have ht5 := List.append_cancel_left ht4
      have hh : (g3 ++ rest).head? = some '.' := by rw [← ht5]; rfl
      exact (hhead rfl) hh
    rw [if_neg hp]
    refine ⟨rest, ?_⟩
    rw [hline]
    simp

theorem numberFormatCheck_inv {line loc : Str} {i : CheckIssue}
    (h : i ∈ numberFormatCheck line loc) :
    i.original ≠ [] ∧ i.suggestion ≠ [] ∧ i.original ≠ i.suggestion ∧
      i.original <:+: line := by
  unfold numberFormatCheck at h
  split at h
  · next g1 g2 hd g3 hdup =>
    simp only [List.mem_singleton] at h
    subst h
    obtain ⟨hg1, hg2, _, _, rest, hline, _⟩ := parseDup_sound hdup
    have hl2 := length_pos_of_ne_nil hg2
    refine ⟨?_, ?_, ?_, (parseDup_leading hdup).isInfix⟩
    · show (if (g1 ++ '.' :: g2 ++ ['.']).isPrefixOf line
          then g1 ++ '.' :: g2 ++ ['.'] else g1 ++ '.' :: g2) ++ g3 ≠ []
      split <;> simp
    · show g1 ++ '.' :: g3 ≠ []
      simp
    · apply ne_of_length_ne
      show ((if (g1 ++ '.' :: g2 ++ ['.']).isPrefixOf line
          then g1 ++ '.' :: g2 ++ ['.'] else g1 ++ '.' :: g2) ++ g3).length ≠
        (g1 ++ '.' :: g3).length
      split <;>
        (simp only [List.length_append, List.length_cons, List.length_nil]; omega)
  · split at h
    · next g1 hmk =>
      simp only [List.mem_singleton] at h
      subst h
      obtain ⟨hg1, _, _, rest, hline⟩ := parseMarker_sound hmk
      refine ⟨by simp, by simp, ?_, ?_⟩
      · intro he
        have hgl := congrArg List.getLast? he
        rw [List.getLast?_concat, List.getLast?_concat] at hgl
        exact absurd hgl (by decide)
      · exact List.IsPrefix.isInfix ⟨rest, by rw [hline]; simp⟩
    · split at h
      · next g1 hmk =>
        simp only [List.mem_singleton] at h
        subst h
        obtain ⟨hg1, _, _, rest, hline⟩ := parseMarker_sound hmk
        refine ⟨by simp, by simp, ?_, ?_⟩
        · intro he
          have hgl := congrArg List.getLast? he
          rw [List.getLast?_concat, List.getLast?_concat] at hgl
          exact absurd hgl (by decide)
        · exact List.IsPrefix.isInfix ⟨rest, by rw [hline]; simp⟩
      · split at h
        · next g1 hpp =>
          simp only [List.mem_singleton] at h
          subst h
          obtain ⟨hg1, _, rest, hline⟩ := parseParen_sound hpp
          refine ⟨by simp, by simp, ?_, ?_⟩
          · apply ne_of_length_ne
            simp only [List.length_cons, List.length_append, List.length_nil]
            omega
          · exact List.IsPrefix.isInfix ⟨rest, by rw [hline]; simp⟩
        · split at h
          · next g1 hpp =>
            simp only [List.mem_singleton] at h
            subst h
            obtain ⟨hg1, _, rest, hline⟩ := parseParen_sound hpp
            refine ⟨by simp, by simp, ?_, ?_⟩
            · apply ne_of_length_ne
              simp only [List.length_cons, List.length_append, List.length_nil]
              omega
            · exact List.IsPrefix.isInfix ⟨rest, by rw [hline]; simp⟩
          · split at h
            · next g1 ws hds =>
              simp only [List.mem_singleton] at h
              subst h
              obtain ⟨hg1, hws, _, _, rest, hline⟩ := parseDotSpace_sound hds
              have hwl := length_pos_of_ne_nil hws
              refine ⟨by simp, by simp, ?_, ?_⟩
              · apply ne_of_length_ne
                simp only [List.length_append, List.length_cons, List.length_nil]
                omega
              · exact List.IsPrefix.isInfix ⟨rest, by rw [hline]; simp⟩
            · cases h

theorem finditer_slice_inv {α : Type} {m : Str → Option (α × Nat)} {line : Str}
    {pos : Nat} {v : α} {L : Nat}
    (h : (pos, v, L) ∈ finditer m line)
    (hb : ∀ s w K, m s = some (w, K) → K ≤ s.length ∧ s ≠ []) :
    pos + L ≤ line.length ∧ (pySliceNat line pos (pos + L)).length = L := by
  have hm := finditer_mem h
  obtain ⟨hK, hne⟩ := hb _ _ _ hm
  have hlen : (line.drop pos).length = line.length - pos := List.length_drop _ _
  have hpos : pos < line.length := by
    by_contra hc
    push_neg at hc
    exact hne (List.drop_eq_nil_of_le hc)
  rw [hlen] at hK
  constructor
  · omega
  · rw [pySliceNat_length]
    omega

theorem extraSpacesMatcher_bound {s : Str} {v : Char × Char} {L : Nat}
    (h : extraSpacesMatcher s = some (v, L)) : 3 ≤ L ∧ L ≤ s.length ∧ s ≠ [] := by
  unfold extraSpacesMatcher at h
  split at h
  · next c1 r =>
    dsimp only at h
    split at h
    · split at h
      · cases h
      · next hws =>
        split at h
        · next c2 rest heq =>
          split at h
          · simp only [Option.some.injEq, Prod.mk.injEq] at h
            obtain ⟨_, rfl⟩ := h
            have hwl : 1 ≤ (r.takeWhile isPySpace).length := by
              cases hr : r.takeWhile isPySpace with
              | nil => rw [hr] at hws; simp at hws
              | cons x xs => simp [hr]
            have hdl : (r.drop (r.takeWhile isPySpace).length).length =
                r.length - (r.takeWhile isPySpace).length := List.length_drop _ _
            rw [heq] at hdl
            simp only [List.length_cons] at hdl
            refine ⟨by omega, ?_, by simp⟩
            simp only [List.length_cons]
            omega
          · cases h
        · cases h
    · cases h
  · cases h

theorem extraSpacesCheck_inv {line loc : Str} {i : CheckIssue}
    (h : i ∈ extraSpacesCheck line loc) :
    i.original ≠ [] ∧ i.suggestion ≠ [] ∧ i.original ≠ i.suggestion ∧
      i.original <:+: line := by
  unfold extraSpacesCheck at h
  obtain ⟨⟨pos, ⟨c1, c2⟩, L⟩, hmem, rfl⟩ := List.mem_map.mp h
  have hm := finditer_mem hmem
  have hb := extraSpacesMatcher_bound hm
  have hsl := finditer_slice_inv hmem
    (fun s w K hk => ⟨(extraSpacesMatcher_bound hk).2.1, (extraSpacesMatcher_bound hk).2.2⟩)
  refine ⟨?_, by simp, ?_, pySliceNat_infix_self _ _ _⟩
  · intro he
    have hl := congrArg List.length he
    rw [hsl.2] at hl
    simp at hl
    omega
  · apply ne_of_length_ne
    rw [hsl.2]
    simp only [List.length_cons, List.length_nil]
    omega

theorem englishPunctCheck_inv {line loc : Str} {i : CheckIssue}
    (h : i ∈ englishPunctCheck line loc) :
    i.original ≠ [] ∧ i.suggestion ≠ [] ∧ i.original ≠ i.suggestion ∧
      i.original <:+: line := by
  unfold englishPunctCheck at h
  rcases List.mem_append.mp h with h | h
  · obtain ⟨p, hp, hmap⟩ := List.mem_flatMap.mp h
    obtain ⟨pos, hpos, rfl⟩ := List.mem_map.mp hmap
    obtain ⟨hlt, hc⟩ := mem_charPositions.mp hpos
    have hmem : p.1 ∈ line := mem_of_getD hlt hc
    fin_cases hp <;>
      exact ⟨by dsimp only; decide, by dsimp only; decide, by dsimp only; decide, singleton_infix_of_mem hmem⟩
  · obtain ⟨pos, hpos, rfl⟩ := List.mem_map.mp h
    have hpos2 : pos ∈ charPositions ':' line := (List.mem_filter.mp hpos).1
    obtain ⟨hlt, hc⟩ := mem_charPositions.mp hpos2
    exact ⟨by dsimp only; decide, by dsimp only; decide, by dsimp only; decide,
      singleton_infix_of_mem (mem_of_getD hlt hc)⟩

theorem slashMatcher_mem {s : Str} {v : Unit × Nat}
    (h : slashMatcher s = some v) : '/' ∈ s := by
  unfold slashMatcher at h
  split at h
  · simp
  · cases h

theorem slashCheck_inv {line loc : Str} {i : CheckIssue}
    (h : i ∈ slashCheck line loc) :
    i.original ≠ [] ∧ i.suggestion ≠ [] ∧ i.original ≠ i.suggestion ∧
      i.original <:+: line := by
  unfold slashCheck at h
  obtain ⟨⟨pos, v, L⟩, hmem, rfl⟩ := List.mem_map.mp h
  have hs : '/' ∈ line.drop pos := slashMatcher_mem (finditer_mem hmem)
  exact ⟨by dsimp only; decide, by dsimp only; decide, by dsimp only; decide,
    singleton_infix_of_mem (List.mem_of_mem_drop hs)⟩

theorem consecMatcher_bound {s : Str} {c : Char} {L : Nat}
    (h : consecMatcher s = some (c, L)) : 2 ≤ L ∧ L ≤ s.length ∧ s ≠ [] := by
  unfold consecMatcher at h
  split at h
  · next a r =>
    dsimp only at h
    split at h
    · split at h
      · cases h
      · next hk =>
        simp only [Option.some.injEq, Prod.mk.injEq] at h
        obtain ⟨rfl, rfl⟩ := h
        have hle : (r.takeWhile (· = a)).length ≤ r.length :=
          (List.takeWhile_prefix _).length_le
        refine ⟨by omega, ?_, by simp⟩
        simp only [List.length_cons]
        omega
    · cases h
  · cases h

theorem mixedMatcher_bound {p1 p2 : Char} {s : Str} {v : Unit} {L : Nat}
    (h : mixedMatcher p1 p2 s = some (v, L)) : L = 2 ∧ 2 ≤ s.length ∧ s ≠ [] := by
  unfold mixedMatcher at h
  split at h
  · split at h
    · simp only [Option.some.injEq, Prod.mk.injEq] at h
      obtain ⟨_, rfl⟩ := h
      refine ⟨rfl, ?_, by simp⟩
      simp only [List.length_cons]
      omega
    · cases h
  · cases h

theorem consecutiveCheck_inv {line loc : Str} {i : CheckIssue}
    (h : i ∈ consecutiveCheck line loc) :
    i.original ≠ [] ∧ i.suggestion ≠ [] ∧ i.original ≠ i.suggestion ∧
      i.original <:+: line := by
  unfold consecutiveCheck at h
  rcases List.mem_append.mp h with h | h
  · obtain ⟨⟨pos, c, L⟩, hmem, rfl⟩ := List.mem_map.mp h
    have hb := consecMatcher_bound (finditer_mem hmem)
    have hsl := finditer_slice_inv hmem
      (fun s w K hk => ⟨(consecMatcher_bound hk).2.1, (consecMatcher_bound hk).2.2⟩)
    refine ⟨?_, by simp, ?_, pySliceNat_infix_self _ _ _⟩
    · intro he
      have hl := congrArg List.length he
      rw [hsl.2] at hl
      simp at hl
      omega
    · apply ne_of_length_ne
      rw [hsl.2]
      simp only [List.length_cons, List.length_nil]
      omega
  · obtain ⟨p, hp, hmap⟩ := List.mem_flatMap.mp h
    obtain ⟨⟨pos, v, L⟩, hmem, rfl⟩ := List.mem_map.mp hmap
    have hb := mixedMatcher_bound (finditer_mem hmem)
    have hsl := finditer_slice_inv hmem
      (fun s w K hk => by
        have hb2 := mixedMatcher_bound hk
        exact ⟨by omega, hb2.2.2⟩)
    have hL : L = 2 := hb.1
    subst hL
    refine ⟨?_, by simp, ?_, pySliceNat_infix_self _ _ _⟩
    · intro he
      have hl := congrArg List.length he
      rw [hsl.2] at hl
      simp at hl
    · apply ne_of_length_ne
      rw [hsl.2]
      simp only [List.length_cons, List.length_nil]
      omega

theorem bracketsCheck_inv {line loc : Str} {i : CheckIssue}
    (h : i ∈ bracketsCheck line loc) :
    i.original ≠ [] ∧ i.suggestion ≠ [] ∧ i.original ≠ i.suggestion ∧
      i.original <:+: line := by
  unfold bracketsCheck at h
  rcases List.mem_append.mp h with h | h
  · obtain ⟨pos, hpos, hp⟩ := List.mem_flatMap.mp h
    obtain ⟨hlt, hc⟩ := mem_charPositions.mp hpos
    have hmem := mem_of_getD hlt hc
    split at hp
    · split at hp
      · split at hp
        · simp only [List.mem_singleton] at hp
          subst hp
          exact ⟨by dsimp only; decide, by dsimp only; decide, by dsimp only; decide, singleton_infix_of_mem hmem⟩
        · cases hp
      · cases hp
    · cases hp
  · obtain ⟨pos, hpos, hp⟩ := List.mem_flatMap.mp h
    obtain ⟨hlt, hc⟩ := mem_charPositions.mp hpos
    have hmem := mem_of_getD hlt hc
    split at hp
    · split at hp
      · simp only [List.mem_singleton] at hp
        subst hp
        exact ⟨by dsimp only; decide, by dsimp only; decide, by dsimp only; decide, singleton_infix_of_mem hmem⟩
      · cases hp
    · cases hp

theorem endingPunctCheck_inv {line loc : Str} {i : CheckIssue}
    (h : i ∈ endingPunctCheck line loc) :
    i.original ≠ [] ∧ i.suggestion ≠ [] ∧ i.original ≠ i.suggestion ∧
      i.original <:+: line := by
  unfold endingPunctCheck at h
  split at h
  · cases h
  · next hne0 =>
    split at h
    · cases h
    · dsimp only at h
      have hlne : line ≠ [] := by
        intro he
        rw [he] at hne0
        exact hne0 rfl
      have hesuf := get_unique_ending_suffix line
      have hene : get_unique_ending line ≠ [] := get_unique_ending_ne_nil hlne
      split at h
      · next hlast =>
        simp only [List.mem_singleton] at h
        subst h
        refine ⟨hene, by simp, ?_, hesuf.isInfix⟩
        intro heq
        have h1 : (get_unique_ending line).getLast? = some '；' := by
          rw [← getLast?_get_unique_ending]
          exact getLast?_eq_of_getLastD hlne hlast
        have heq2 : get_unique_ending line =
            (get_unique_ending line).dropLast ++ ['。'] := heq
        rw [heq2, List.getLast?_concat] at h1
        exact absurd h1 (by decide)
      · split at h
        · next hlast =>
          simp only [List.mem_singleton] at h
          subst h
          refine ⟨hene, by simp, ?_, hesuf.isInfix⟩
          intro heq
          have h1 : (get_unique_ending line).getLast? = some '.' := by
            rw [← getLast?_get_unique_ending]
            exact getLast?_eq_of_getLastD hlne hlast
          have heq2 : get_unique_ending line =
              (get_unique_ending line).dropLast ++ ['。'] := heq
          rw [heq2, List.getLast?_concat] at h1
          exact absurd h1 (by decide)
        · split at h
          · next hlast =>
            simp only [List.mem_singleton] at h
            subst h
            refine ⟨hene, by simp, ?_, hesuf.isInfix⟩
            intro heq
            have h1 : (get_unique_ending line).getLast? = some '！' := by
              rw [← getLast?_get_unique_ending]
              exact getLast?_eq_of_getLastD hlne hlast
            have heq2 : get_unique_ending line =
                (get_unique_ending line).dropLast ++ ['。'] := heq
            rw [heq2, List.getLast?_concat] at h1
            exact absurd h1 (by decide)
          · split at h
            · simp only [List.mem_singleton] at h
              subst h
              refine ⟨hene, by simp, ?_, hesuf.isInfix⟩
              apply ne_of_length_ne
              simp only [List.length_append, List.length_cons, List.length_nil]
              omega
            · cases h

theorem midOriginal_inv {content line : Str} {pos : Nat}
    (hpos : pos + 1 < content.length) (hchar : content.getD pos ' ' = '。')
    (hlne : line ≠ []) (hcl : content <:+: line) :
    midOriginal content line pos ≠ [] ∧ '。' ∈ midOriginal content line pos ∧
      midOriginal content line pos <:+: line := by
  have hctxlen : (pySliceNat content (pos - 3) (pos + 4)).length =
      min (pos + 4) content.length - (pos - 3) := pySliceNat_length _ _ _
  unfold midOriginal
  dsimp only
  cases hf : (List.range' (pySliceNat content (pos - 3) (pos + 4)).length
      (min content.length (pos + 10) -
        (pySliceNat content (pos - 3) (pos + 4)).length)).find?
      (fun L => pyCount line (midWindowSlice content pos L) == 1) with
  | none =>
    have hmem := @mem_pySliceNat content (pos - 3) (pos + 4) pos
      (by omega) (by omega) (by omega)
    rw [hchar] at hmem
    exact ⟨pySliceNat_ne_nil (by omega) (by omega), hmem,
      (pySliceNat_infix_self _ _ _).trans hcl⟩
  | some L =>
    obtain ⟨hL1, hL2, hLp⟩ := find?_range'_mem hf
    simp only [beq_iff_eq] at hLp
    have hL4 : 4 ≤ L := by
      rw [hctxlen] at hL1 hL2
      omega
    have hA : ¬((max 0 ((pos : Int) - ((L : Int) - 4))) < 0) := by omega
    have hB : ¬((min ((content.length : Int)) ((pos : Int) + ((L : Int) - 3))) < 0) := by
      omega
    have hw : midWindowSlice content pos L =
        pySliceNat content (max 0 ((pos : Int) - ((L : Int) - 4))).toNat
          (min ((content.length : Int)) ((pos : Int) + ((L : Int) - 3))).toNat := by
      unfold midWindowSlice pySliceInt
      dsimp only
      rw [if_neg hA, if_neg hB]
    have ha' : (max 0 ((pos : Int) - ((L : Int) - 4))).toNat ≤ pos := by omega
    have hb' : pos < (min ((content.length : Int)) ((pos : Int) + ((L : Int) - 3))).toNat := by
      omega
    have hmem := @mem_pySliceNat content
      (max 0 ((pos : Int) - ((L : Int) - 4))).toNat
      (min ((content.length : Int)) ((pos : Int) + ((L : Int) - 3))).toNat pos
      ha' hb' (by omega)
    rw [hchar] at hmem
    show midWindowSlice content pos L ≠ [] ∧ '。' ∈ midWindowSlice content pos L ∧
      midWindowSlice content pos L <:+: line
    rw [hw]
    have hwne : pySliceNat content (max 0 ((pos : Int) - ((L : Int) - 4))).toNat
        (min ((content.length : Int)) ((pos : Int) + ((L : Int) - 3))).toNat ≠ [] :=
      List.ne_nil_of_mem hmem
    refine ⟨hwne, hmem, ?_⟩
    refine infix_of_pyCount_pos hwne ?_
    rw [← hw, hLp]
    omega

theorem midPeriodCheck_inv {line loc : Str} {i : CheckIssue}
    (h : i ∈ midPeriodCheck line loc) :
    i.original ≠ [] ∧ i.suggestion ≠ [] ∧ i.original ≠ i.suggestion ∧
      i.original <:+: line := by
  unfold midPeriodCheck at h
  split at h
  · cases h
  · next hne0 =>
    dsimp only at h
    split at h
    · cases h
    · obtain ⟨pos, hpos, rfl⟩ := List.mem_map.mp h
      obtain ⟨hcp, hlt⟩ := List.mem_filter.mp hpos
      obtain ⟨hplen, hchar⟩ := mem_charPositions.mp hcp
      simp only [decide_eq_true_eq] at hlt
      have hlne : line ≠ [] := by
        intro he
        rw [he] at hne0
        exact hne0 rfl
      obtain ⟨hone, hmem, hinf⟩ := @midOriginal_inv (stripLeadingNumber line) line pos
        (by omega) hchar hlne (stripLeadingNumber_infix_self line)
      refine ⟨hone, ?_, ?_, hinf⟩
      · intro he
        have h2 : (midOriginal (stripLeadingNumber line) line pos).length = 0 := by
          have h3 := congrArg List.length he
          rw [replaceFirstChar_length] at h3
          simpa using h3
        exact hone (List.length_eq_zero.mp h2)
      · exact (replaceFirstChar_ne (by decide) hmem).symm

theorem missingNumberIssue_inv (loc : Str) {line : Str} (hlne : line ≠ []) :
    (missingNumberIssue line loc).original ≠ [] ∧
    (missingNumberIssue line loc).suggestion ≠ [] ∧
    (missingNumberIssue line loc).original ≠ (missingNumberIssue line loc).suggestion ∧
    (missingNumberIssue line loc).original <:+: line := by
  unfold missingNumberIssue
  dsimp only
  by_cases h10 : 10 < line.length
  · rw [if_pos h10, if_pos h10]
    refine ⟨?_, by simp, ?_, (List.take_prefix 10 line).isInfix⟩
    · intro he
      have hl := congrArg List.length he
      rw [List.length_take] at hl
      simp only [List.length_nil] at hl
      omega
    · apply ne_of_length_ne
      simp only [List.length_cons]
      omega
  · rw [if_neg h10, if_neg h10]
    refine ⟨hlne, by simp, ?_, List.infix_rfl⟩
    apply ne_of_length_ne
    simp only [List.length_cons]
    omega

theorem checkLineIssues_inv {config : RuleConfig} {line loc : Str} {i : CheckIssue}
    (h : i ∈ checkLineIssues config line loc) :
    i.original ≠ [] ∧ i.suggestion ≠ [] ∧ i.original ≠ i.suggestion ∧
      i.original <:+: line := by
  unfold checkLineIssues at h
  simp only [List.mem_append] at h
  rcases h with ((((((h | h) | h) | h) | h) | h) | h) | h
  · exact numberFormatCheck_inv (mem_of_mem_ite_nil h)
  · exact extraSpacesCheck_inv (mem_of_mem_ite_nil h)
  · exact englishPunctCheck_inv (mem_of_mem_ite_nil h)
  · exact slashCheck_inv (mem_of_mem_ite_nil h)
  · exact consecutiveCheck_inv (mem_of_mem_ite_nil h)
  · exact bracketsCheck_inv (mem_of_mem_ite_nil h)
  · exact endingPunctCheck_inv (mem_of_mem_ite_nil h)
  · exact midPeriodCheck_inv (mem_of_mem_ite_nil h)

/-- The issue list of one scan step is empty, a single missing-number
issue, the `_check_line` issues, or the `_check_line` issues followed by
one renumbering issue with disagreeing numbers. -/
theorem ruleScanStep_shape (config : RuleConfig) (st : ScanState) (rawLine : Str) :
    (ruleScanStep config st rawLine).2 = [] ∨
    (pyStrip rawLine ≠ [] ∧
      ∃ loc, (ruleScanStep config st rawLine).2 =
        [missingNumberIssue (pyStrip rawLine) loc]) ∨
    (∃ loc, (ruleScanStep config st rawLine).2 =
      checkLineIssues config (pyStrip rawLine) loc) ∨
    (∃ loc current expected, current ≠ expected ∧
      (ruleScanStep config st rawLine).2 =
        checkLineIssues config (pyStrip rawLine) loc ++
          [seqIssue (pyStrip rawLine) loc current expected]) := by
  generalize hgen : (ruleScanStep config st rawLine).2 = l
  unfold ruleScanStep at hgen
  dsimp only at hgen
  set st1 := if st.current_section.isEmpty = true then st
    else { st with line_index_in_section := st.line_index_in_section + 1 } with hst1
  split at hgen
  · next hemp =>
    subst hgen
    exact Or.inl rfl
  · next hne =>
    split at hgen
    · subst hgen
      exact Or.inl rfl
    · split at hgen
      · subst hgen
        exact Or.inl rfl
      · split at hgen
        · split at hgen
          · split at hgen
            · next current heq =>
              split at hgen
              · next hcond =>
                subst hgen
                exact Or.inr (Or.inr (Or.inr ⟨_, current, _, hcond.2, rfl⟩))
              · subst hgen
                exact Or.inr (Or.inr (Or.inl ⟨_, List.append_nil _⟩))
            · subst hgen
              exact Or.inr (Or.inr (Or.inl ⟨_, rfl⟩))
          · subst hgen
            exact Or.inr (Or.inr (Or.inl ⟨_, rfl⟩))
        · split at hgen
          · subst hgen
            refine Or.inr (Or.inl ⟨?_, _, rfl⟩)
            intro he
            rw [he] at hne
            exact hne rfl
          · subst hgen
            exact Or.inl rfl

/-- Invariant of every issue emitted by one scan step: non-empty
`original` and `suggestion`, `original ≠ suggestion`, and the `original`
is a substring of the stripped line unless the issue is the renumbering
issue, whose `original`/`suggestion` are two disagreeing numbers with an
ASCII period. -/
theorem ruleScanStep_issue_inv {config : RuleConfig} {st : ScanState}
    {rawLine : Str} {i : CheckIssue}
    (h : i ∈ (ruleScanStep config st rawLine).2) :
    i.original ≠ [] ∧ i.suggestion ≠ [] ∧ i.original ≠ i.suggestion ∧
      (i.original <:+: pyStrip rawLine ∨
        ∃ n m : Nat, n ≠ m ∧ i.original = natChars n ++ ['.'] ∧
          i.suggestion = natChars m ++ ['.']) := by
  rcases ruleScanStep_shape config st rawLine with hs | ⟨hlne, loc, hs⟩ |
    ⟨loc, hs⟩ | ⟨loc, current, expected, hne, hs⟩
  · rw [hs] at h
    cases h
  · rw [hs] at h
    rw [List.mem_singleton] at h
    subst h
    obtain ⟨h1, h2, h3, h4⟩ := missingNumberIssue_inv loc hlne
    exact ⟨h1, h2, h3, Or.inl h4⟩
  · rw [hs] at h
    obtain ⟨h1, h2, h3, h4⟩ := checkLineIssues_inv h
    exact ⟨h1, h2, h3, Or.inl h4⟩
  · rw [hs] at h
    rcases List.mem_append.mp h with h | h
    · obtain ⟨h1, h2, h3, h4⟩ := checkLineIssues_inv h
      exact ⟨h1, h2, h3, Or.inl h4⟩
    · rw [List.mem_singleton] at h
      subst h
      exact ⟨by simp [seqIssue], by simp [seqIssue], seq_shape_ne hne,
        Or.inr ⟨current, expected, hne, rfl, rfl⟩⟩

theorem ruleCheckLines_inv {config : RuleConfig} :
    ∀ {lines : List Str} {st : ScanState} {i : CheckIssue},
      i ∈ ruleCheckLines config st lines →
      ∃ rawLine ∈ lines, ∃ st2, i ∈ (ruleScanStep config st2 rawLine).2 := by
  intro lines
  induction lines with
  | nil =>
    intro st i h
    cases h
  | cons l rest ih =>
    intro st i h
    unfold ruleCheckLines at h
    dsimp only at h
    rcases List.mem_append.mp h with h | h
    · exact ⟨l, List.mem_cons_self l rest, st, h⟩
    · obtain ⟨raw, hraw, st2, hm⟩ := ih h
      exact ⟨raw, List.mem_cons_of_mem l hraw, st2, hm⟩

/-- Claim C1 as stated is false: a sequence-gap (renumbering) issue's
`original` interpolates the parsed number with an ASCII period even when
the itemized line uses the CJK enumeration dot as its marker.  On
`本周工作\n1、完成。\n3、推进。` the renumbering issue has `original`
`3.`, which is not a substring of any line of the input (raw or
stripped). -/
theorem claim1_counterexample :
    ∃ i ∈ ruleCheck "本周工作\n1、完成。\n3、推进。".data defaultRuleConfig,
      i.original ≠ [] ∧ i.suggestion ≠ [] ∧
      ∀ rawLine ∈ splitOnNl "本周工作\n1、完成。\n3、推进。".data,
        containsSub i.original rawLine = false ∧
        containsSub i.original (pyStrip rawLine) = false := by
  decide

/-- Claim C1 (amended): every issue emitted by the rule scanner has a
non-empty `original`, a non-empty `suggestion`, and
`original ≠ suggestion`; the `original` is a literal substring of the
stripped scanned line for every issue except the sequence-gap
renumbering issue, whose `original` and `suggestion` are two disagreeing
numbers followed by an ASCII period regardless of the line's marker
punctuation. -/
theorem claim1_issue_invariant_amended (text : Str) (config : RuleConfig)
    (i : CheckIssue) (h : i ∈ ruleCheck text config) :
    i.original ≠ [] ∧ i.suggestion ≠ [] ∧ i.original ≠ i.suggestion ∧
      ((∃ rawLine ∈ splitOnNl text, i.original <:+: pyStrip rawLine) ∨
        ∃ n m : Nat, n ≠ m ∧ i.original = natChars n ++ ['.'] ∧
          i.suggestion = natChars m ++ ['.']) := by
  unfold ruleCheck at h
  obtain ⟨raw, hraw, st2, hm⟩ := ruleCheckLines_inv h
  obtain ⟨h1, h2, h3, h4⟩ := ruleScanStep_issue_inv hm
  exact ⟨h1, h2, h3, h4.elim (fun hin => Or.inl ⟨raw, hraw, hin⟩) Or.inr⟩

/-- Witness for the amended C1 at the numbering-format issue emitted on
`本周工作\n1、完成。`. -/
theorem claim1_witness :
    ({ type := "format".data, severity := "error".data,
       location := "本周工作第1条".data, context := "1、完成。".data,
       original := "1、".data, suggestion := "1.".data,
       source := "rule".data } : CheckIssue).original ≠ [] ∧
    ({ type := "format".data, severity := "error".data,
       location := "本周工作第1条".data, context := "1、完成。".data,
       original := "1、".data, suggestion := "1.".data,
       source := "rule".data } : CheckIssue).suggestion ≠ [] ∧
    ({ type := "format".data, severity := "error".data,
       location := "本周工作第1条".data, context := "1、完成。".data,
       original := "1、".data, suggestion := "1.".data,
       source := "rule".data } : CheckIssue).original ≠
      ({ type := "format".data, severity := "error".data,
         location := "本周工作第1条".data, context := "1、完成。".data,
         original := "1、".data, suggestion := "1.".data,
         source := "rule".data } : CheckIssue).suggestion ∧
    ((∃ rawLine ∈ splitOnNl "本周工作\n1、完成。".data,
        ({ type := "format".data, severity := "error".data,
           location := "本周工作第1条".data, context := "1、完成。".data,
           original := "1、".data, suggestion := "1.".data,
           source := "rule".data } : CheckIssue).original <:+: pyStrip rawLine) ∨
      ∃ n m : Nat, n ≠ m ∧
        ({ type := "format".data, severity := "error".data,
           location := "本周工作第1条".data, context := "1、完成。".data,
           original := "1、".data, suggestion := "1.".data,
           source := "rule".data } : CheckIssue).original = natChars n ++ ['.'] ∧
        ({ type := "format".data, severity := "error".data,
           location := "本周工作第1条".data, context := "1、完成。".data,
           original := "1、".data, suggestion := "1.".data,
           source := "rule".data } : CheckIssue).suggestion = natChars m ++ ['.']) :=
  claim1_issue_invariant_amended "本周工作\n1、完成。".data defaultRuleConfig
    { type := "format".data, severity := "error".data,
      location := "本周工作第1条".data, context := "1、完成。".data,
      original := "1、".data, suggestion := "1.".data,
      source := "rule".data }
    (by decide)
